import Mathlib

/-!
LinuxDisplayInfo: native-resolution resolution, EDID decoding and DPI.

A shallow embedding of `monitor_common.cpp`, `wayland_monitor.cpp` and
`x11_monitor.cpp`.

* C++ `int` is a mathematical integer; the one arithmetic operation the code
  performs on `int`s, `width * height`, is reduced to 32 bits two's complement
  by `imul32`.
* The connector directory `/sys/class/drm` is a list of entries in the order
  the directory iterator yields them; each entry carries the contents of its
  `status`, `modes` and `edid` files, when those files exist.
* `float` values are finite IEEE-754 binary32 numbers, `F32`, with correctly
  rounded conversion and division.
-/

namespace LinuxDisplayInfo

set_option maxRecDepth 20000

/-! ## Machine integers -/

/-- Reduction of an integer to the range of a 32-bit two's complement `int`. -/
def wrap32 (z : Int) : Int :=
  (z + 2147483648) % 4294967296 - 2147483648

/-- The C++ expression `a * b` on two `int`s, reduced to 32 bits. -/
def imul32 (a b : Int) : Int :=
  wrap32 (a * b)

/-- Conversion `static_cast<uint64_t>(z)` of an `int`. -/
def to_u64 (z : Int) : Nat :=
  (z % 18446744073709551616).toNat

/-- The product of two `uint64_t` values. -/
def umul64 (a b : Nat) : Nat :=
  (a * b) % 18446744073709551616

/-! ## Single-precision floats -/

/-- A finite binary32 value `(-1)^neg * man * 2^exp`.  Normal numbers have
`2^23 ≤ man < 2^24`; subnormal numbers and zero have `exp = -149`. -/
structure F32 where
  neg : Bool
  man : Nat
  exp : Int
deriving DecidableEq, Repr

/-- Round-half-to-even of the quotient `n / d` of two naturals (`d > 0`). -/
def round_half_even (n d : Nat) : Nat :=
  let q := n / d
  let r := n % d
  if 2 * r > d ∨ (2 * r = d ∧ q % 2 = 1) then q + 1 else q

/-- The position of the highest set bit of `n`, searched with `fuel` halvings. -/
def log2_fuel : Nat → Nat → Nat
  | 0, _ => 0
  | fuel + 1, n => if 2 ≤ n then log2_fuel fuel (n / 2) + 1 else 0

/-- The integer `e` with `2^e ≤ n / d < 2^(e+1)`, for `n, d > 0`. -/
def floor_log2_ratio (n d : Nat) : Int :=
  let k : Int := (log2_fuel n n : Int) - (log2_fuel d d : Int)
  if d * 2 ^ k.toNat ≤ n * 2 ^ (-k).toNat then k else k - 1

/-- The binary32 value nearest to `± n / d` (ties to even), for `d > 0`.
Results beyond the largest finite float are outside the model. -/
def f32_of_ratio (neg : Bool) (n d : Nat) : F32 :=
  if n = 0 then ⟨neg, 0, -149⟩
  else
    let e := floor_log2_ratio n d
    let u : Int := max e (-126) - 23
    let q := round_half_even (n * 2 ^ (-u).toNat) (d * 2 ^ u.toNat)
    if q = 16777216 then ⟨neg, 8388608, u + 1⟩ else ⟨neg, q, u⟩

/-- Conversion of an `int` to `float`. -/
def f32_of_int (z : Int) : F32 :=
  f32_of_ratio (decide (z < 0)) z.natAbs 1

/-- Float division `a / b` for a non-zero divisor. -/
def f32_div (a b : F32) : F32 :=
  f32_of_ratio (xor a.neg b.neg)
    (a.man * 2 ^ (a.exp - b.exp).toNat) (b.man * 2 ^ (b.exp - a.exp).toNat)

/-- The literal `1.0f`. -/
def f32_one : F32 := f32_of_ratio false 1 1

/-- The literal `25.4f`. -/
def f32_25_4 : F32 := f32_of_ratio false 127 5

/-- The digits written by `std::fixed << std::setprecision(1)` for a
non-negative float, as a number of tenths: the exact binary value rounded to
the nearest tenth, ties to even. -/
def fixed1_tenths (a : F32) : Nat :=
  round_half_even (10 * a.man * 2 ^ a.exp.toNat) (2 ^ (-a.exp).toNat)

/-! ## The monitor record (`monitor_common.h`) -/

/-- The structure `MonitorInfo` with its default member initialisers. -/
structure MonitorInfo where
  name : String := "Unknown Monitor"
  width_px : Int := 0
  height_px : Int := 0
  native_width : Int := 0
  native_height : Int := 0
  width_mm : Int := 0
  height_mm : Int := 0
  scale : F32 := f32_one
  x_pos : Int := 0
  y_pos : Int := 0
deriving DecidableEq, Repr

/-! ## Text helpers -/

/-- The function `std::getline` applied once to a freshly opened file: the
characters before the first newline. -/
def first_line : List Char → List Char
  | [] => []
  | c :: cs => if c = '\n' then [] else c :: first_line cs

/-- The successive results of `std::getline` on a file until it fails; `cur`
holds the characters of the line being read, most recent first. -/
def getlines_aux : List Char → List Char → List (List Char)
  | [], cur => if cur = [] then [] else [cur.reverse]
  | c :: cs, cur =>
    if c = '\n' then cur.reverse :: getlines_aux cs [] else getlines_aux cs (c :: cur)

/-- All lines that `while (std::getline(file, line))` visits. -/
def getlines (content : List Char) : List (List Char) :=
  getlines_aux content []

/-- The test `s.find(pat) != std::string::npos`. -/
def str_contains : List Char → List Char → Bool
  | [], pat => pat.isEmpty
  | c :: cs, pat => pat.isPrefixOf (c :: cs) || str_contains cs pat

/-- An attempt to match `([0-9]+)x([0-9]+)` starting at the head of `s`.
The quantifiers are greedy; a shorter first group is always followed by a
digit, so taking the whole run of digits loses no match. -/
def match_mode_at (s : List Char) : Option (List Char × List Char) :=
  let d1 := s.takeWhile Char.isDigit
  if d1 = [] then none
  else
    match s.dropWhile Char.isDigit with
    | c :: rest =>
      let d2 := rest.takeWhile Char.isDigit
      if c = 'x' ∧ d2 ≠ [] then some (d1, d2) else none
    | [] => none

/-- The call `std::regex_search(line, match, mode_regex)`: the leftmost match
of `([0-9]+)x([0-9]+)`, as the two captured groups. -/
def regex_search_mode : List Char → Option (List Char × List Char)
  | [] => none
  | c :: cs =>
    match match_mode_at (c :: cs) with
    | some r => some r
    | none => regex_search_mode cs

/-- The numeric value of a string of decimal digits. -/
def digits_value (ds : List Char) : Nat :=
  ds.foldl (fun acc c => 10 * acc + (c.toNat - 48)) 0

/-- The call `std::stoi` on a string of decimal digits: `none` stands for the
exception `std::out_of_range`. -/
def stoi (ds : List Char) : Option Int :=
  if digits_value ds ≤ 2147483647 then some (digits_value ds : Int) else none

/-! ## The connector tree -/

/-- One entry of `/sys/class/drm`.  A file that is missing is `none`; a file
that exists but cannot be read behaves like an empty file. -/
structure Connector where
  name : String
  status : Option String
  modes : Option String
  edid : Option (List (Fin 256))
deriving DecidableEq, Repr

/-- How the body of a loop was left. -/
inductive Flow where
  | next (info : MonitorInfo)
  | stop (info : MonitorInfo)
  | thrown (info : MonitorInfo)
deriving DecidableEq, Repr

/-- The record carried by a loop outcome. -/
def Flow.info : Flow → MonitorInfo
  | .next i => i
  | .stop i => i
  | .thrown i => i

/-! ## `get_native_resolution_from_drm` (`monitor_common.cpp`) -/

/-- The body of the `while (std::getline(modes_file, line))` loop for one
line.  `none` is an exception raised by `std::stoi`. -/
def process_mode_line (info : MonitorInfo) (line : List Char) : Option MonitorInfo :=
  match regex_search_mode line with
  | none => some info
  | some (g1, g2) =>
    match stoi g1 with
    | none => none
    | some width =>
      match stoi g2 with
      | none => none
      | some height =>
        if imul32 width height > imul32 info.native_width info.native_height then
          some { info with native_width := width, native_height := height }
        else some info

/-- The whole `while` loop over the lines of a `modes` file.  `Flow.next` is a
normal end of the loop, `Flow.thrown` an exception with the record as it was
when the exception left the loop. -/
def scan_mode_lines : MonitorInfo → List (List Char) → Flow
  | info, [] => .next info
  | info, line :: rest =>
    match process_mode_line info line with
    | none => .thrown info
    | some info1 => scan_mode_lines info1 rest

/-- Byte `i` of the buffer `e`. -/
def edid_byte (e : List (Fin 256)) (i : Nat) : Nat :=
  (e.getD i 0).val

/-- The test of the eight header bytes. -/
def edid_header_ok (e : List (Fin 256)) : Bool :=
  edid_byte e 0 = 0x00 ∧ edid_byte e 1 = 0xFF ∧ edid_byte e 2 = 0xFF ∧ edid_byte e 3 = 0xFF ∧
  edid_byte e 4 = 0xFF ∧ edid_byte e 5 = 0xFF ∧ edid_byte e 6 = 0xFF ∧ edid_byte e 7 = 0x00

/-- The value `h_active`: `((e[56 + 4] >> 4) << 8) | e[54 + 2]` as `uint16_t`. -/
def edid_h_active (e : List (Fin 256)) : Nat :=
  ((((edid_byte e (56 + 4)) >>> 4) <<< 8) ||| edid_byte e (54 + 2)) % 65536

/-- The value `v_active`: `((e[56 + 7] >> 4) << 8) | e[54 + 5]` as `uint16_t`. -/
def edid_v_active (e : List (Fin 256)) : Nat :=
  ((((edid_byte e (56 + 7)) >>> 4) <<< 8) ||| edid_byte e (54 + 5)) % 65536

/-- The statements executed on the 128 bytes read from an `edid` file
(after `edid_file.gcount() == 128`). -/
def edid_decode_block (info : MonitorInfo) (e : List (Fin 256)) : MonitorInfo :=
  if edid_header_ok e then
    if edid_h_active e > 0 ∧ edid_v_active e > 0 then
      { info with native_width := edid_h_active e, native_height := edid_v_active e }
    else info
  else info

/-- The fallback `if (info.native_width == 0 || info.native_height == 0)` with
the read of at most 128 bytes from the `edid` file. -/
def edid_fallback (info : MonitorInfo) (edid : Option (List (Fin 256))) : MonitorInfo :=
  if info.native_width = 0 ∨ info.native_height = 0 then
    match edid with
    | none => info
    | some bytes =>
      if (bytes.take 128).length = 128 then edid_decode_block info (bytes.take 128) else info
  else info

/-- The name test `name.find("card") != npos && name.find("-") != npos`; an
entry that fails it is skipped. -/
def name_is_connector (name : String) : Bool :=
  str_contains name.toList "card".toList && str_contains name.toList "-".toList

/-- The status test: an entry whose `status` file exists and whose first line
is not `connected` is skipped. -/
def status_connected : Option String → Bool
  | some s => decide (first_line s.toList = "connected".toList)
  | none => true

/-- The body of the loop over the directory entries, for one entry. -/
def connector_step (info : MonitorInfo) (c : Connector) : Flow :=
  if !name_is_connector c.name then .next info
  else if !status_connected c.status then .next info
  else
    match c.modes with
    | some content =>
      match scan_mode_lines info (getlines content.toList) with
      | .next info1 =>
        if info1.native_width > 0 ∧ info1.native_height > 0 then .stop info1
        else .next (edid_fallback info1 c.edid)
      | .stop info1 => .stop info1
      | .thrown info1 => .thrown info1
    | none => .next (edid_fallback info c.edid)

/-- The loop over the directory entries. -/
def scan_connectors : MonitorInfo → List Connector → Flow
  | info, [] => .next info
  | info, c :: rest =>
    match connector_step info c with
    | .next info1 => scan_connectors info1 rest
    | .stop info1 => .stop info1
    | .thrown info1 => .thrown info1

/-- The function `get_native_resolution_from_drm`.  The directory is `none`
when `/sys/class/drm` does not exist or cannot be opened; the record is
returned as the `catch` block or the end of the function leaves it. -/
def get_native_resolution_from_drm (drm : Option (List Connector)) (info : MonitorInfo) :
    MonitorInfo :=
  match drm with
  | none => info
  | some entries => (scan_connectors info entries).info

/-! ## The Wayland handlers (`wayland_monitor.cpp`) -/

/-- The protocol constant `WL_OUTPUT_MODE_CURRENT` of `wayland-client`. -/
def WL_OUTPUT_MODE_CURRENT : Nat := 1

/-- An event delivered to the `wl_output` listener before `done`; a null
`make` or `model` pointer is `none`. -/
inductive WlEvent where
  | geometry (x y physical_width physical_height subpixel : Int)
      (make model : Option String) (transform : Int)
  | mode (flags : Nat) (width height refresh : Int)
  | scale (factor : Int)
deriving DecidableEq, Repr

/-- The handler `output_geometry`. -/
def output_geometry (info : MonitorInfo) (x y physical_width physical_height : Int)
    (make model : Option String) : MonitorInfo :=
  { info with
    width_mm := physical_width
    height_mm := physical_height
    x_pos := x
    y_pos := y
    name := (make.getD "Unknown") ++ " " ++ (model.getD "Display") }

/-- The handler `output_mode`. -/
def output_mode (info : MonitorInfo) (flags : Nat) (width height : Int) : MonitorInfo :=
  let info1 :=
    if flags &&& WL_OUTPUT_MODE_CURRENT ≠ 0 then
      { info with width_px := width, height_px := height }
    else info
  if imul32 width height > imul32 info1.native_width info1.native_height then
    { info1 with native_width := width, native_height := height }
  else info1

/-- The handler `output_scale`. -/
def output_scale (info : MonitorInfo) (factor : Int) : MonitorInfo :=
  { info with scale := f32_of_int factor }

/-- The handler `output_done`. -/
def output_done (drm : Option (List Connector)) (info : MonitorInfo) : MonitorInfo :=
  get_native_resolution_from_drm drm info

/-- Dispatch of one event to its handler. -/
def wl_dispatch (info : MonitorInfo) : WlEvent → MonitorInfo
  | .geometry x y pw ph _ make model _ => output_geometry info x y pw ph make model
  | .mode flags w h _ => output_mode info flags w h
  | .scale factor => output_scale info factor

/-- The record bound by `registry_global` (`monitors.emplace_back()`) after
the listener has received the events `evs` in order. -/
def wl_record (evs : List WlEvent) : MonitorInfo :=
  evs.foldl wl_dispatch {}

/-! ## The X11 per-output construction (`x11_monitor.cpp`) -/

/-- The fields of `XRRModeInfo` that are read; all are unsigned. -/
structure XRRModeInfo where
  id : Nat
  width : Nat
  height : Nat
deriving DecidableEq, Repr

/-- The fields of `XRRCrtcInfo` that are read. -/
structure XRRCrtcInfo where
  x : Int
  y : Int
  width : Nat
  height : Nat
deriving DecidableEq, Repr

/-- The protocol constant `RR_Connected` of `Xrandr`. -/
def RR_Connected : Nat := 0

/-- The fields of `XRROutputInfo` that are read.  `crtc` is `none` when the
output has no CRTC or `XRRGetCrtcInfo` returns null. -/
structure XRROutputInfo where
  name : String
  mm_width : Nat
  mm_height : Nat
  connection : Nat
  crtc : Option XRRCrtcInfo
  modes : List Nat
deriving DecidableEq, Repr

/-- The inner loop over `screen_res->modes` for one mode id: the first entry
with that id competes with the stored native resolution. -/
def x11_consider_mode (info : MonitorInfo) (mode_id : Nat) : List XRRModeInfo → MonitorInfo
  | [] => info
  | m :: rest =>
    if mode_id = m.id then
      let mode_pixels := umul64 (m.width % 4294967296) (m.height % 4294967296)
      let native_pixels := umul64 (to_u64 info.native_width) (to_u64 info.native_height)
      if mode_pixels > native_pixels then
        { info with native_width := wrap32 m.width, native_height := wrap32 m.height }
      else info
    else x11_consider_mode info mode_id rest

/-- The fallback to the current mode at the end of the per-output block. -/
def x11_current_fallback (info : MonitorInfo) : MonitorInfo :=
  if info.native_width = 0 ∨ (info.native_height = 0 ∧ info.width_px > 0) then
    { info with native_width := info.width_px, native_height := info.height_px }
  else info

/-- The record after the block `if (output_info->crtc)`: name and physical
size from the output, current mode and position from the CRTC.  The
aspect-ratio check is floating-point code on values that need not be finite;
`aspect_check` stands for it and gives the scale it assigns, if any, from the
record it sees. -/
def x11_crtc_record (aspect_check : MonitorInfo → Option F32) (out : XRROutputInfo) :
    MonitorInfo :=
  let info0 : MonitorInfo :=
    { name := out.name, width_mm := wrap32 out.mm_width, height_mm := wrap32 out.mm_height }
  match out.crtc with
  | none => info0
  | some crtc =>
    let i : MonitorInfo :=
      { info0 with
        width_px := wrap32 crtc.width
        height_px := wrap32 crtc.height
        x_pos := crtc.x
        y_pos := crtc.y }
    if i.width_mm > 0 ∧ i.height_mm > 0 then
      match aspect_check i with
      | some s => { i with scale := s }
      | none => i
    else i

/-- The loop `for (int j = 0; j < output_info->nmode; j++)`. -/
def x11_mode_list (screen_modes : List XRRModeInfo) (info : MonitorInfo) (modes : List Nat) :
    MonitorInfo :=
  modes.foldl (fun i mode_id => x11_consider_mode i mode_id screen_modes) info

/-- The conditional call of `get_native_resolution_from_drm`. -/
def x11_drm_lookup (drm : Option (List Connector)) (info : MonitorInfo) : MonitorInfo :=
  if info.native_width = 0 ∨ info.native_height = 0 then get_native_resolution_from_drm drm info
  else info

/-- The record pushed for one output by `list_x11_monitors`, `none` for an
output that is skipped as disconnected. -/
def x11_output_record (screen_modes : List XRRModeInfo) (drm : Option (List Connector))
    (aspect_check : MonitorInfo → Option F32) (out : XRROutputInfo) : Option MonitorInfo :=
  if out.connection ≠ RR_Connected then none
  else
    some (x11_current_fallback (x11_drm_lookup drm
      (x11_mode_list screen_modes (x11_crtc_record aspect_check out) out.modes)))

/-! ## `print_monitor_info` (`monitor_common.cpp`) -/

/-- What `print_monitor_info` writes for one monitor, item by item; an item
that is not written is `none`.  The two DPI items hold the `float` locals
`native_dpi_x`, `native_dpi_y` and `dpi_x`, `dpi_y`. -/
structure Printed where
  index : Int
  name : String
  current_resolution : Option (Int × Int)
  scaled_by : Option F32
  position : Option (Int × Int)
  not_active : Bool
  native_resolution : Option (Int × Int)
  physical_size : Option (Int × Int)
  native_dpi : Option (F32 × F32)
  current_dpi : Option (F32 × F32)
deriving DecidableEq, Repr

/-- The expression `px / (mm / 25.4f)`. -/
def dpi_of (px mm : Int) : F32 :=
  f32_div (f32_of_int px) (f32_div (f32_of_int mm) f32_25_4)

/-- The function `print_monitor_info`. -/
def print_monitor_info (monitor : MonitorInfo) (index : Int) : Printed :=
  let active : Bool := monitor.width_px > 0 ∧ monitor.height_px > 0
  let has_native : Bool := monitor.native_width > 0 ∧ monitor.native_height > 0
  let has_size : Bool := monitor.width_mm > 0 ∧ monitor.height_mm > 0
  { index := index
    name := monitor.name
    current_resolution := if active then some (monitor.width_px, monitor.height_px) else none
    scaled_by := if active ∧ monitor.scale ≠ f32_one then some monitor.scale else none
    position :=
      if active ∧ (monitor.x_pos ≠ 0 ∨ monitor.y_pos ≠ 0) then
        some (monitor.x_pos, monitor.y_pos)
      else none
    not_active := !active
    native_resolution :=
      if has_native ∧
          (monitor.native_width ≠ monitor.width_px ∨ monitor.native_height ≠ monitor.height_px) then
        some (monitor.native_width, monitor.native_height)
      else none
    physical_size := if has_size then some (monitor.width_mm, monitor.height_mm) else none
    native_dpi :=
      if has_size ∧ has_native then
        some (dpi_of monitor.native_width monitor.width_mm,
          dpi_of monitor.native_height monitor.height_mm)
      else none
    current_dpi :=
      if has_size ∧ active then
        some (dpi_of monitor.width_px monitor.width_mm, dpi_of monitor.height_px monitor.height_mm)
      else none }

/-! ## Vocabulary of the statements -/

/-- The record `info` with its native resolution replaced. -/
def with_native (info : MonitorInfo) (w h : Int) : MonitorInfo :=
  { info with native_width := w, native_height := h }

/-- The pixel area the code computes for a resolution: `width * height` as `int`. -/
def area (p : Int × Int) : Int :=
  imul32 p.1 p.2

/-- The `WIDTHxHEIGHT` entry of a line, if the line has one: the numbers of the
leftmost match of the mode pattern. -/
def line_entry (line : List Char) : Option (Int × Int) :=
  (regex_search_mode line).map fun g => ((digits_value g.1 : Int), (digits_value g.2 : Int))

/-- The `WIDTHxHEIGHT` entries of a list of lines, in order. -/
def mode_entries (lines : List (List Char)) : List (Int × Int) :=
  lines.filterMap line_entry

/-- Every number of every entry fits an `int`, so that `std::stoi` returns. -/
def entries_fit (lines : List (List Char)) : Prop :=
  ∀ p ∈ mode_entries lines, p.1 ≤ 2147483647 ∧ p.2 ≤ 2147483647

/-- The entry `e` is the first entry of `es` whose area is maximal. -/
def is_first_max (es : List (Int × Int)) (e : Int × Int) : Prop :=
  ∃ pre post, es = pre ++ e :: post ∧ (∀ x ∈ pre, area x < area e) ∧ (∀ x ∈ post, area x ≤ area e)

/-- The eight bytes `00 FF FF FF FF FF FF 00`. -/
def edid_magic : List (Fin 256) :=
  [0x00, 0xFF, 0xFF, 0xFF, 0xFF, 0xFF, 0xFF, 0x00]

/-- A 128-byte block with the magic header, the given bytes at offsets 56, 59,
60 and 63, and zero everywhere else. -/
def edid_sample (b56 b59 b60 b63 : Fin 256) : List (Fin 256) :=
  edid_magic ++ List.replicate 48 0 ++ [b56, 0, 0, b59, b60, 0, 0, b63] ++ List.replicate 64 0

/-- A 128-byte block with the magic header whose first detailed timing
descriptor, at offset 54, is the standard one of 1920x1080 at 60 Hz on a
527x296 mm panel: horizontal active 0x780 as 0x80 at offset 56 and nibble 7 at
offset 58, vertical active 0x438 as 0x38 at offset 59 and nibble 4 at offset 61. -/
def edid_standard_1080p : List (Fin 256) :=
  edid_magic ++ List.replicate 46 0 ++
    [0x02, 0x3A, 0x80, 0x18, 0x71, 0x38, 0x2D, 0x40, 0x58, 0x2C, 0x45, 0x00,
      0x0F, 0x28, 0x21, 0x00, 0x00, 0x1E] ++ List.replicate 56 0

/-- The native resolution of a record, as a pair. -/
def native_of (info : MonitorInfo) : Int × Int :=
  (info.native_width, info.native_height)

/-- The current resolution of a record, as a pair. -/
def current_of (info : MonitorInfo) : Int × Int :=
  (info.width_px, info.height_px)

/-- The record `t` is `s`, or `s` with its native resolution replaced by a
pair of non-negative numbers of strictly greater area. -/
def advances (s t : MonitorInfo) : Prop :=
  t = s ∨ ∃ w h : Int, t = with_native s w h ∧ 0 ≤ w ∧ 0 ≤ h ∧ area (native_of s) < area (w, h)

/-- The outcome `f` with its record replaced. -/
def Flow.with_info : Flow → MonitorInfo → Flow
  | .next _, t => .next t
  | .stop _, t => .stop t
  | .thrown _, t => .thrown t

/-- The loop outcome is a normal end of the body. -/
def Flow.is_next : Flow → Bool
  | .next _ => true
  | _ => false

/-- The lines of the `modes` file of a connector; none when the file is missing. -/
def connector_lines (c : Connector) : List (List Char) :=
  match c.modes with
  | some content => getlines content.toList
  | none => []

/-- The line makes `std::stoi` throw: it has an entry one of whose numbers
exceeds `INT_MAX`. -/
def line_throws (line : List Char) : Bool :=
  match regex_search_mode line with
  | none => false
  | some g => decide (stoi g.1 = none ∨ stoi g.2 = none)

/-- A connected connector without `modes` file whose `edid` encodes 1920x1080. -/
def sample_edid_connector : Connector :=
  ⟨"card0-eDP-1", some "connected\n", none, some (edid_sample 0x80 0x38 0x70 0x40)⟩

/-- A connected connector whose mode list has the single line 3840x2160. -/
def sample_modes_connector : Connector :=
  ⟨"card0-HDMI-A-1", some "connected\n", some "3840x2160\n", none⟩

/-- A connector whose `status` file reads `disconnected`, with a mode list and
an `edid` file. -/
def sample_disconnected_connector : Connector :=
  ⟨"card0-DP-1", some "disconnected\n", some "5120x2880\n", some (edid_sample 0x80 0x38 0x70 0x40)⟩

/-- A connected connector whose mode list has the single line 1280x720. -/
def sample_small_modes_connector : Connector :=
  ⟨"card0-DP-2", some "connected\n", some "1280x720\n", none⟩

/-- A resolution is fully known (both components positive) or fully unknown
(both zero). -/
def known_or_unknown (p : Int × Int) : Prop :=
  (0 < p.1 ∧ 0 < p.2) ∨ (p.1 = 0 ∧ p.2 = 0)

/-- The dimensions of a mode event are not negative. -/
def WlEvent.dims_nonneg : WlEvent → Prop
  | .mode _ w h _ => 0 ≤ w ∧ 0 ≤ h
  | _ => True

/-- Two events may be delivered in either order: they are of different kinds,
or two geometry events that write the same values, or two scale events with
the same factor, or two mode events that either have the same dimensions or
have different areas and are not both flagged current. -/
def wl_compatible : WlEvent → WlEvent → Bool
  | .geometry x y pw ph _ make model _, .geometry x' y' pw' ph' _ make' model' _ =>
    decide (x = x' ∧ y = y' ∧ pw = pw' ∧ ph = ph' ∧ make = make' ∧ model = model')
  | .scale f, .scale f' => decide (f = f')
  | .mode fl w h _, .mode fl' w' h' _ =>
    decide ((w = w' ∧ h = h') ∨
      ((fl &&& WL_OUTPUT_MODE_CURRENT = 0 ∨ fl' &&& WL_OUTPUT_MODE_CURRENT = 0) ∧
        area (w, h) ≠ area (w', h')))
  | _, _ => true

/-- A record with native resolution 3840x2160 on a 600x340 mm panel. -/
def sample_uhd_monitor : MonitorInfo :=
  { native_width := 3840, native_height := 2160, width_mm := 600, height_mm := 340 }

/-- The two numbers of a DPI item as they are printed, in tenths. -/
def printed_tenths (item : Option (F32 × F32)) : Option (Nat × Nat) :=
  item.map fun p => (fixed1_tenths p.1, fixed1_tenths p.2)

/-- The rational number a float stands for. -/
def F32.value (a : F32) : ℚ :=
  (if a.neg then -1 else 1) * (a.man : ℚ) * (2 : ℚ) ^ a.exp

/-- An X11 output that is connected, shows 1920x1080 and lists that mode only. -/
def sample_x11_output : XRROutputInfo :=
  ⟨"HDMI-1", 527, 296, RR_Connected, some ⟨0, 0, 1920, 1080⟩, [1]⟩

/-! ## The mode-list scan -/

theorem process_mode_line_no_entry (info : MonitorInfo) (line : List Char)
    (h : line_entry line = none) : process_mode_line info line = some info := by
  unfold line_entry at h
  unfold process_mode_line
  cases hr : regex_search_mode line with
  | none => rfl
  | some g => rw [hr] at h; simp at h

theorem process_mode_line_entry (info : MonitorInfo) (line : List Char) (p : Int × Int)
    (h : line_entry line = some p) (hw : p.1 ≤ 2147483647) (hh : p.2 ≤ 2147483647) :
    process_mode_line info line =
      some (if area p > area (info.native_width, info.native_height)
        then with_native info p.1 p.2 else info) := by
  unfold line_entry at h
  unfold process_mode_line
  cases hr : regex_search_mode line with
  | none => rw [hr] at h; simp at h
  | some g =>
    obtain ⟨g1, g2⟩ := g
    rw [hr] at h
    simp only [Option.map, Option.some.injEq] at h
    subst h
    simp only at hw hh
    have h1 : digits_value g1 ≤ 2147483647 := by exact_mod_cast hw
    have h2 : digits_value g2 ≤ 2147483647 := by exact_mod_cast hh
    simp only [stoi, h1, h2, if_true, area, with_native]
    split <;> rfl

theorem entries_fit_cons {l : List Char} {ls : List (List Char)} (h : entries_fit (l :: ls)) :
    entries_fit ls := by
  intro p hp
  apply h p
  unfold mode_entries at hp ⊢
  rw [List.filterMap_cons]
  cases line_entry l with
  | none => exact hp
  | some q => exact List.mem_cons_of_mem _ hp

theorem with_native_with_native (info : MonitorInfo) (a b c d : Int) :
    with_native (with_native info a b) c d = with_native info c d := rfl

/-- The mode loop from any starting record: either no entry beats the stored
area and the record is unchanged, or the record ends with the first entry of
maximal area, which beats the stored area. -/
theorem scan_mode_lines_spec (lines : List (List Char)) :
    ∀ info : MonitorInfo, entries_fit lines →
      (scan_mode_lines info lines = .next info ∧
        ∀ x ∈ mode_entries lines, area x ≤ area (info.native_width, info.native_height)) ∨
      (∃ e, is_first_max (mode_entries lines) e ∧
        area (info.native_width, info.native_height) < area e ∧
        scan_mode_lines info lines = .next (with_native info e.1 e.2)) := by
  induction lines with
  | nil =>
    intro info _
    left
    exact ⟨rfl, by simp [mode_entries]⟩
  | cons l ls ih =>
    intro info hfit
    have hfit2 := entries_fit_cons hfit
    cases he : line_entry l with
    | none =>
      have hent : mode_entries (l :: ls) = mode_entries ls := by
        simp [mode_entries, List.filterMap_cons, he]
      rw [hent]
      have hstep : scan_mode_lines info (l :: ls) = scan_mode_lines info ls := by
        simp [scan_mode_lines, process_mode_line_no_entry info l he]
      rw [hstep]
      exact ih info hfit2
    | some p =>
      have hent : mode_entries (l :: ls) = p :: mode_entries ls := by
        simp [mode_entries, List.filterMap_cons, he]
      have hp := hfit p (by rw [hent]; exact List.mem_cons_self _ _)
      have hproc := process_mode_line_entry info l p he hp.1 hp.2
      rw [hent]
      by_cases hgt : area p > area (info.native_width, info.native_height)
      · have hstep : scan_mode_lines info (l :: ls) =
            scan_mode_lines (with_native info p.1 p.2) ls := by
          simp [scan_mode_lines, hproc, hgt]
        rw [hstep]
        right
        rcases ih (with_native info p.1 p.2) hfit2 with ⟨hs, hall⟩ | ⟨e, ⟨pre, post, hsplit, hpre, hpost⟩, hlt, hs⟩
        · refine ⟨p, ⟨[], mode_entries ls, rfl, by simp, ?_⟩, hgt, hs⟩
          intro x hx
          exact hall x hx
        · have hlt2 : area p < area e := hlt
          refine ⟨e, ⟨p :: pre, post, by simp [hsplit], ?_, hpost⟩, lt_trans hgt hlt2, ?_⟩
          · intro x hx
            rcases List.mem_cons.mp hx with rfl | hx
            · exact hlt2
            · exact hpre x hx
          · rw [hs, with_native_with_native]
      · have hstep : scan_mode_lines info (l :: ls) = scan_mode_lines info ls := by
          simp [scan_mode_lines, hproc, hgt]
        rw [hstep]
        have hle : area p ≤ area (info.native_width, info.native_height) := not_lt.mp hgt
        rcases ih info hfit2 with ⟨hs, hall⟩ | ⟨e, ⟨pre, post, hsplit, hpre, hpost⟩, hlt, hs⟩
        · left
          refine ⟨hs, ?_⟩
          intro x hx
          rcases List.mem_cons.mp hx with rfl | hx
          · exact hle
          · exact hall x hx
        · right
          refine ⟨e, ⟨p :: pre, post, by simp [hsplit], ?_, hpost⟩, hlt, hs⟩
          intro x hx
          rcases List.mem_cons.mp hx with rfl | hx
          · exact lt_of_le_of_lt hle hlt
          · exact hpre x hx

/-- Where the exact product of two dimensions fits an `int`, the area the
code computes is that product. -/
theorem area_eq_mul (w h : Int) (h0 : 0 ≤ w * h) (h1 : w * h ≤ 2147483647) :
    area (w, h) = w * h := by
  simp only [area, imul32, wrap32]
  omega

/-- C1 (as amended): from a record whose native resolution is 0x0, and a list
of mode lines all of whose numbers fit an `int`, the mode loop ends normally;
if some entry has positive area the native resolution becomes the first
listed entry of maximal area, otherwise it stays 0x0.  The list
1920x1080, 2560x1440, 1280x720 gives 2560x1440, and one connected connector
with modes file "1024x768\n1920x1080\n" and no edid file gives 1920x1080. -/
theorem C1_mode_scan_selects_first_maximal_area :
    (∀ (lines : List (List Char)) (info : MonitorInfo),
      info.native_width = 0 → info.native_height = 0 → entries_fit lines →
        ((∃ x ∈ mode_entries lines, 0 < area x) →
          ∃ e, is_first_max (mode_entries lines) e ∧
            scan_mode_lines info lines = .next (with_native info e.1 e.2)) ∧
        ((∀ x ∈ mode_entries lines, area x ≤ 0) → scan_mode_lines info lines = .next info)) ∧
    scan_mode_lines {} ["1920x1080".toList, "2560x1440".toList, "1280x720".toList]
      = .next (with_native {} 2560 1440) ∧
    get_native_resolution_from_drm
      (some [⟨"card0-HDMI-A-1", some "connected\n", some "1024x768\n1920x1080\n", none⟩]) {}
      = with_native {} 1920 1080 := by
  refine ⟨?_, by decide, by decide⟩
  intro lines info hw hh hfit
  have hzero : area (info.native_width, info.native_height) = 0 := by
    rw [hw, hh]; decide
  rcases scan_mode_lines_spec lines info hfit with ⟨hs, hall⟩ | ⟨e, hmax, hlt, hs⟩
  · refine ⟨?_, fun _ => hs⟩
    rintro ⟨x, hx, hpos⟩
    have := hall x hx
    rw [hzero] at this
    omega
  · refine ⟨fun _ => ⟨e, hmax, hs⟩, ?_⟩
    intro hall
    obtain ⟨pre, post, hsplit, -, -⟩ := hmax
    have := hall e (by rw [hsplit]; simp)
    rw [hzero] at hlt
    omega

/-- C1, witness: the general statement at the list 1920x1080, 2560x1440, 1280x720. -/
theorem C1_mode_scan_witness :
    entries_fit ["1920x1080".toList, "2560x1440".toList, "1280x720".toList] ∧
    (∃ x ∈ mode_entries ["1920x1080".toList, "2560x1440".toList, "1280x720".toList], 0 < area x) ∧
    ∃ e, is_first_max
        (mode_entries ["1920x1080".toList, "2560x1440".toList, "1280x720".toList]) e ∧
      scan_mode_lines {} ["1920x1080".toList, "2560x1440".toList, "1280x720".toList]
        = .next (with_native {} e.1 e.2) :=
  ⟨by unfold entries_fit; decide, by decide,
    (C1_mode_scan_selects_first_maximal_area.1 _ {} rfl rfl (by unfold entries_fit; decide)).1
      (by decide)⟩

/-- C1, counterexample: for the single mode line 0x600 the first entry of
maximal area is 0x600, yet the scan leaves the native resolution at 0x0. -/
theorem C1_counterexample_zero_area_entry :
    is_first_max (mode_entries ["0x600".toList]) (0, 600) ∧
    (scan_mode_lines {} ["0x600".toList]).info.native_width = 0 ∧
    (scan_mode_lines {} ["0x600".toList]).info.native_height = 0 :=
  ⟨⟨[], [], by decide, by simp, by simp⟩, by decide, by decide⟩

/-! ## The EDID decoder -/

theorem nibble_byte (b c : Nat) (hb : b < 256) (hc : c < 256) :
    (((b >>> 4) <<< 8) ||| c) % 65536 = 256 * (b / 16) + c := by
  have h := Nat.mul_add_lt_is_or (by omega : c < 2 ^ 8) (b / 16)
  rw [Nat.shiftLeft_eq, Nat.shiftRight_eq_div_pow]
  have e : b / 2 ^ 4 * 2 ^ 8 = 2 ^ 8 * (b / 16) := by norm_num; ring
  rw [e, ← h]
  norm_num
  omega

theorem edid_byte_lt (e : List (Fin 256)) (i : Nat) : edid_byte e i < 256 :=
  (e.getD i 0).isLt

theorem edid_h_active_eq (e : List (Fin 256)) :
    edid_h_active e = 256 * (edid_byte e 60 / 16) + edid_byte e 56 :=
  nibble_byte _ _ (edid_byte_lt e 60) (edid_byte_lt e 56)

theorem edid_v_active_eq (e : List (Fin 256)) :
    edid_v_active e = 256 * (edid_byte e 63 / 16) + edid_byte e 59 :=
  nibble_byte _ _ (edid_byte_lt e 63) (edid_byte_lt e 59)

theorem edid_h_active_lt (e : List (Fin 256)) : edid_h_active e < 4096 := by
  have h1 := edid_byte_lt e 60
  have h2 := edid_byte_lt e 56
  rw [edid_h_active_eq]
  omega

theorem edid_v_active_lt (e : List (Fin 256)) : edid_v_active e < 4096 := by
  have h1 := edid_byte_lt e 63
  have h2 := edid_byte_lt e 59
  rw [edid_v_active_eq]
  omega

theorem edid_decode_block_eq (info : MonitorInfo) (e : List (Fin 256)) :
    edid_decode_block info e =
      if edid_header_ok e = true ∧ 0 < edid_h_active e ∧ 0 < edid_v_active e then
        with_native info (edid_h_active e) (edid_v_active e)
      else info := by
  unfold edid_decode_block with_native
  by_cases h : edid_header_ok e = true <;> by_cases h2 : 0 < edid_h_active e ∧ 0 < edid_v_active e <;>
    simp [h, h2]

theorem edid_header_ok_iff (e : List (Fin 256)) (hlen : 8 ≤ e.length) :
    edid_header_ok e = true ↔ e.take 8 = edid_magic := by
  match e, hlen with
  | a0 :: a1 :: a2 :: a3 :: a4 :: a5 :: a6 :: a7 :: rest, _ =>
    simp [edid_header_ok, edid_byte, edid_magic, Fin.ext_iff]
    exact fun _ => Iff.rfl

/-- What the decoder reads from a block with the magic header: the width from
offset 56 and the upper half of offset 60, the height from offset 59 and the
upper half of offset 63, and nothing else beyond the header. -/
theorem edid_decode_block_reads :
    (∀ (e : List (Fin 256)) (info : MonitorInfo), edid_header_ok e = true →
      edid_h_active e = 256 * (edid_byte e 60 / 16) + edid_byte e 56 ∧
      edid_v_active e = 256 * (edid_byte e 63 / 16) + edid_byte e 59 ∧
      edid_h_active e < 4096 ∧ edid_v_active e < 4096 ∧
      (0 < edid_h_active e → 0 < edid_v_active e →
        edid_decode_block info e = with_native info (edid_h_active e) (edid_v_active e))) ∧
    (∀ (e e' : List (Fin 256)) (info : MonitorInfo),
      edid_header_ok e = true → edid_header_ok e' = true →
      edid_byte e 56 = edid_byte e' 56 → edid_byte e 59 = edid_byte e' 59 →
      edid_byte e 60 = edid_byte e' 60 → edid_byte e 63 = edid_byte e' 63 →
        edid_decode_block info e = edid_decode_block info e') := by
  refine ⟨?_, ?_⟩
  · intro e info hok
    refine ⟨edid_h_active_eq e, edid_v_active_eq e, edid_h_active_lt e, edid_v_active_lt e, ?_⟩
    intro hh hv
    rw [edid_decode_block_eq, if_pos ⟨hok, hh, hv⟩]
  · intro e e' info hok hok' h56 h59 h60 h63
    have hh : edid_h_active e = edid_h_active e' := by
      rw [edid_h_active_eq, edid_h_active_eq, h56, h60]
    have hv : edid_v_active e = edid_v_active e' := by
      rw [edid_v_active_eq, edid_v_active_eq, h59, h63]
    rw [edid_decode_block_eq, edid_decode_block_eq, hok, hok', hh, hv]

/-- C2, on the failing input: the 128-byte block with the magic header, 0x80 at
offset 56, 0x38 at offset 59, 0x70 at offset 60 and zero elsewhere decodes to
1920x56, and the block that differs from it at offset 63 only (0x40) decodes to
1920x1080: the height's high nibble is read at offset 63, not within the bytes
56, 59 and 60.  The block that carries the standard detailed timing descriptor
of 1920x1080 at offset 54 decodes to 640x568. -/
theorem C2_height_nibble_read_at_offset_63 :
    (edid_sample 0x80 0x38 0x70 0x00).length = 128 ∧
    (edid_sample 0x80 0x38 0x70 0x40).length = 128 ∧
    edid_header_ok (edid_sample 0x80 0x38 0x70 0x00) = true ∧
    edid_header_ok (edid_sample 0x80 0x38 0x70 0x40) = true ∧
    edid_byte (edid_sample 0x80 0x38 0x70 0x00) 56 = edid_byte (edid_sample 0x80 0x38 0x70 0x40) 56 ∧
    edid_byte (edid_sample 0x80 0x38 0x70 0x00) 59 = edid_byte (edid_sample 0x80 0x38 0x70 0x40) 59 ∧
    edid_byte (edid_sample 0x80 0x38 0x70 0x00) 60 = edid_byte (edid_sample 0x80 0x38 0x70 0x40) 60 ∧
    edid_decode_block {} (edid_sample 0x80 0x38 0x70 0x00) = with_native {} 1920 56 ∧
    edid_decode_block {} (edid_sample 0x80 0x38 0x70 0x40) = with_native {} 1920 1080 ∧
    edid_standard_1080p.length = 128 ∧
    edid_header_ok edid_standard_1080p = true ∧
    edid_decode_block {} edid_standard_1080p = with_native {} 640 568 := by
  decide

/-- C3: for a 128-byte block read for a record whose native resolution still
has a zero component, the EDID fallback leaves the record exactly as it was if
and only if one of the first eight bytes differs from the magic header or the
decoded width or height is zero; in every other case the native resolution
becomes the decoded pair, both components strictly positive. -/
theorem C3_edid_no_data_iff (e : List (Fin 256)) (info : MonitorInfo)
    (hlen : e.length = 128) (hguard : info.native_width = 0 ∨ info.native_height = 0) :
    (edid_fallback info (some e) = info ↔
      (e.take 8 ≠ edid_magic ∨ edid_h_active e = 0 ∨ edid_v_active e = 0)) ∧
    (¬ (e.take 8 ≠ edid_magic ∨ edid_h_active e = 0 ∨ edid_v_active e = 0) →
      edid_fallback info (some e) = with_native info (edid_h_active e) (edid_v_active e) ∧
      0 < edid_h_active e ∧ 0 < edid_v_active e) := by
  have htake : e.take 128 = e := List.take_of_length_le (by omega)
  have hfb : edid_fallback info (some e) = edid_decode_block info e := by
    simp [edid_fallback, hguard, htake, hlen]
  have hiff := edid_header_ok_iff e (by omega)
  rw [hfb, edid_decode_block_eq]
  by_cases hc : edid_header_ok e = true ∧ 0 < edid_h_active e ∧ 0 < edid_v_active e
  · rw [if_pos hc]
    obtain ⟨hok, hh, hv⟩ := hc
    have hne : with_native info (edid_h_active e) (edid_v_active e) ≠ info := by
      intro heq
      have h1 := congrArg MonitorInfo.native_width heq
      have h2 := congrArg MonitorInfo.native_height heq
      simp only [with_native] at h1 h2
      rcases hguard with hg | hg
      · rw [hg] at h1; omega
      · rw [hg] at h2; omega
    have hnot : ¬ (e.take 8 ≠ edid_magic ∨ edid_h_active e = 0 ∨ edid_v_active e = 0) := by
      rintro (h | h | h)
      · exact h (hiff.mp hok)
      · omega
      · omega
    exact ⟨⟨fun h => absurd h hne, fun h => absurd h hnot⟩, fun _ => ⟨rfl, hh, hv⟩⟩
  · rw [if_neg hc]
    have hyes : e.take 8 ≠ edid_magic ∨ edid_h_active e = 0 ∨ edid_v_active e = 0 := by
      by_contra hcon
      push_neg at hcon
      exact hc ⟨hiff.mpr hcon.1, Nat.pos_of_ne_zero hcon.2.1, Nat.pos_of_ne_zero hcon.2.2⟩
    exact ⟨⟨fun _ => hyes, fun _ => rfl⟩, fun h => absurd hyes h⟩

/-- C3, witness: the statement at the block that encodes 1920x1080 and the
default record. -/
theorem C3_edid_no_data_iff_witness :
    (edid_sample 0x80 0x38 0x70 0x40).length = 128 ∧
    ((({} : MonitorInfo).native_width = 0) ∨ (({} : MonitorInfo).native_height = 0)) ∧
    (edid_fallback {} (some (edid_sample 0x80 0x38 0x70 0x40)) = {} ↔
      ((edid_sample 0x80 0x38 0x70 0x40).take 8 ≠ edid_magic ∨
        edid_h_active (edid_sample 0x80 0x38 0x70 0x40) = 0 ∨
        edid_v_active (edid_sample 0x80 0x38 0x70 0x40) = 0)) :=
  ⟨by decide, Or.inl rfl,
    (C3_edid_no_data_iff (edid_sample 0x80 0x38 0x70 0x40) {} (by decide) (Or.inl rfl)).1⟩

/-! ## Every update of the scan raises the stored area -/

theorem advances_refl (s : MonitorInfo) : advances s s := Or.inl rfl

theorem native_of_with_native (s : MonitorInfo) (w h : Int) :
    native_of (with_native s w h) = (w, h) := rfl

theorem advances_trans {s t u : MonitorInfo} (h1 : advances s t) (h2 : advances t u) :
    advances s u := by
  rcases h1 with rfl | ⟨w, h, rfl, hw, hh, hlt⟩
  · exact h2
  · rcases h2 with rfl | ⟨w', h', rfl, hw', hh', hlt'⟩
    · exact Or.inr ⟨w, h, rfl, hw, hh, hlt⟩
    · rw [native_of_with_native] at hlt'
      exact Or.inr ⟨w', h', rfl, hw', hh', lt_trans hlt hlt'⟩

theorem advances_area_le {s t : MonitorInfo} (h : advances s t) :
    area (native_of s) ≤ area (native_of t) := by
  rcases h with rfl | ⟨w, h, rfl, -, -, hlt⟩
  · exact le_refl _
  · exact le_of_lt hlt

theorem advances_eq_of_area_le {s t : MonitorInfo} (h : advances s t)
    (hle : area (native_of t) ≤ area (native_of s)) : t = s := by
  rcases h with rfl | ⟨w, h, rfl, -, -, hlt⟩
  · rfl
  · rw [native_of_with_native] at hle
    omega

theorem advances_current {s t : MonitorInfo} (h : advances s t) : current_of t = current_of s := by
  rcases h with rfl | ⟨w, h, rfl, -, -, -⟩ <;> rfl

theorem area_zero_left (h : Int) : area (0, h) = 0 := by
  simp [area, imul32, wrap32]

theorem area_zero_right (w : Int) : area (w, 0) = 0 := by
  simp [area, imul32, wrap32]

theorem area_pos_dims {w h : Int} (hw : 0 ≤ w) (hh : 0 ≤ h) (hpos : 0 < area (w, h)) :
    0 < w ∧ 0 < h := by
  constructor
  · rcases eq_or_lt_of_le hw with rfl | hlt
    · rw [area_zero_left] at hpos; omega
    · exact hlt
  · rcases eq_or_lt_of_le hh with rfl | hlt
    · rw [area_zero_right] at hpos; omega
    · exact hlt

theorem area_small {w h : Int} (hw0 : 0 < w) (hw : w < 4096) (hh0 : 0 < h) (hh : h < 4096) :
    0 < area (w, h) := by
  have h1 : 0 < w * h := Int.mul_pos hw0 hh0
  have h2 : w * h ≤ 4095 * 4095 := by nlinarith
  rw [area_eq_mul w h (le_of_lt h1) (by omega)]
  exact h1

theorem stoi_nonneg {ds : List Char} {v : Int} (h : stoi ds = some v) : 0 ≤ v := by
  unfold stoi at h
  split at h
  · simp only [Option.some.injEq] at h
    rw [← h]
    exact Int.ofNat_nonneg _
  · simp at h

theorem process_mode_line_advances {s t : MonitorInfo} {l : List Char}
    (h : process_mode_line s l = some t) : advances s t := by
  unfold process_mode_line at h
  split at h
  · simp only [Option.some.injEq] at h
    exact Or.inl h.symm
  · split at h
    · simp at h
    · rename_i width hw
      split at h
      · simp at h
      · rename_i height hh
        split at h
        · rename_i hgt
          simp only [Option.some.injEq] at h
          exact Or.inr ⟨width, height, h.symm, stoi_nonneg hw, stoi_nonneg hh, hgt⟩
        · simp only [Option.some.injEq] at h
          exact Or.inl h.symm

theorem scan_mode_lines_advances (lines : List (List Char)) :
    ∀ s : MonitorInfo, advances s (scan_mode_lines s lines).info := by
  induction lines with
  | nil => intro s; exact advances_refl s
  | cons l ls ih =>
    intro s
    unfold scan_mode_lines
    cases hp : process_mode_line s l with
    | none => exact advances_refl s
    | some s1 => exact advances_trans (process_mode_line_advances hp) (ih s1)

theorem edid_fallback_advances (s : MonitorInfo) (edid : Option (List (Fin 256))) :
    advances s (edid_fallback s edid) := by
  unfold edid_fallback
  split
  · rename_i hz
    cases edid with
    | none => exact advances_refl s
    | some bytes =>
      simp only
      split
      · rw [edid_decode_block_eq]
        split
        · rename_i hc
          obtain ⟨-, hh, hv⟩ := hc
          have hlt1 := edid_h_active_lt (List.take 128 bytes)
          have hlt2 := edid_v_active_lt (List.take 128 bytes)
          refine Or.inr ⟨_, _, rfl, by omega, by omega, ?_⟩
          have hzero : area (native_of s) = 0 := by
            unfold native_of
            rcases hz with hz | hz
            · rw [hz, area_zero_left]
            · rw [hz, area_zero_right]
          rw [hzero]
          exact area_small (by omega) (by omega) (by omega) (by omega)
        · exact advances_refl s
      · exact advances_refl s
  · exact advances_refl s

theorem connector_step_advances (s : MonitorInfo) (c : Connector) :
    advances s (connector_step s c).info := by
  unfold connector_step
  split
  · exact advances_refl s
  · split
    · exact advances_refl s
    · cases hm : c.modes with
      | none => exact edid_fallback_advances s c.edid
      | some content =>
        simp only
        have hadv := scan_mode_lines_advances (getlines content.toList) s
        cases hsc : scan_mode_lines s (getlines content.toList) with
        | next s1 =>
          rw [hsc] at hadv
          simp only
          split
          · exact hadv
          · exact advances_trans hadv (edid_fallback_advances s1 c.edid)
        | stop s1 => rw [hsc] at hadv; exact hadv
        | thrown s1 => rw [hsc] at hadv; exact hadv

theorem scan_connectors_advances (cs : List Connector) :
    ∀ s : MonitorInfo, advances s (scan_connectors s cs).info := by
  induction cs with
  | nil => intro s; exact advances_refl s
  | cons c rest ih =>
    intro s
    have hstep := connector_step_advances s c
    unfold scan_connectors
    cases hc : connector_step s c with
    | next s1 =>
      rw [hc] at hstep
      exact advances_trans hstep (ih s1)
    | stop s1 => rw [hc] at hstep; exact hstep
    | thrown s1 => rw [hc] at hstep; exact hstep

/-- The whole function only ever replaces the native resolution, and only by a
pair of non-negative numbers of strictly greater area. -/
theorem get_native_resolution_from_drm_advances (drm : Option (List Connector))
    (s : MonitorInfo) : advances s (get_native_resolution_from_drm drm s) := by
  cases drm with
  | none => exact advances_refl s
  | some cs => exact scan_connectors_advances cs s

/-! ## The connector loop -/

theorem stoi_eq_some {ds : List Char} {v : Int} (h : stoi ds = some v) :
    v = (digits_value ds : Int) := by
  unfold stoi at h
  split at h
  · simp only [Option.some.injEq] at h
    exact h.symm
  · simp at h

/-- One line of the mode loop: an exception that depends on the line only, or
the comparison of the entry of the line with the stored area. -/
theorem process_mode_line_eq (s : MonitorInfo) (l : List Char) :
    process_mode_line s l =
      if line_throws l = true then none
      else
        match line_entry l with
        | none => some s
        | some p => some (if area p > area (native_of s) then with_native s p.1 p.2 else s) := by
  unfold process_mode_line line_throws line_entry
  cases hr : regex_search_mode l with
  | none => simp
  | some g =>
    obtain ⟨g1, g2⟩ := g
    simp only [Option.map]
    cases h1 : stoi g1 with
    | none => simp
    | some w =>
      cases h2 : stoi g2 with
      | none => simp
      | some h =>
        have e1 := stoi_eq_some h1
        have e2 := stoi_eq_some h2
        subst e1 e2
        simp only [area, native_of, with_native]
        simp
        split <;> rfl

theorem mode_entries_cons_none {l : List Char} (ls : List (List Char))
    (h : line_entry l = none) : mode_entries (l :: ls) = mode_entries ls := by
  simp [mode_entries, List.filterMap_cons, h]

theorem mode_entries_cons_some {l : List Char} {p : Int × Int} (ls : List (List Char))
    (h : line_entry l = some p) : mode_entries (l :: ls) = p :: mode_entries ls := by
  simp [mode_entries, List.filterMap_cons, h]

/-- A mode list none of whose entries beats the stored area leaves the record
as it is, whether the loop ends normally or by an exception. -/
theorem scan_mode_lines_inert (lines : List (List Char)) (t : MonitorInfo)
    (h : ∀ x ∈ mode_entries lines, area x ≤ area (native_of t)) :
    scan_mode_lines t lines = .next t ∨ scan_mode_lines t lines = .thrown t := by
  induction lines with
  | nil => exact Or.inl rfl
  | cons l ls ih =>
    unfold scan_mode_lines
    rw [process_mode_line_eq]
    by_cases hthrow : line_throws l = true
    · simp [hthrow]
    · simp only [hthrow]
      cases he : line_entry l with
      | none =>
        rw [mode_entries_cons_none ls he] at h
        simpa using ih h
      | some p =>
        rw [mode_entries_cons_some ls he] at h
        have hp : ¬ area p > area (native_of t) := not_lt.mpr (h p (List.mem_cons_self _ _))
        simp only [hp, if_false]
        exact ih (fun x hx => h x (List.mem_cons_of_mem _ hx))

theorem line_throws_entry {l : List Char} (h : line_throws l = true) : line_entry l ≠ none := by
  unfold line_throws at h
  unfold line_entry
  cases hr : regex_search_mode l with
  | none => rw [hr] at h; simp at h
  | some g => simp

/-- A mode list without any entry ends normally and changes nothing. -/
theorem scan_mode_lines_no_entries (lines : List (List Char)) (t : MonitorInfo)
    (h : mode_entries lines = []) : scan_mode_lines t lines = .next t := by
  induction lines with
  | nil => rfl
  | cons l ls ih =>
    cases he : line_entry l with
    | none =>
      rw [mode_entries_cons_none ls he] at h
      have hthrow : ¬ line_throws l = true := fun hth => line_throws_entry hth he
      unfold scan_mode_lines
      rw [process_mode_line_eq]
      simp only [hthrow, he]
      simpa using ih h
    | some p =>
      rw [mode_entries_cons_some ls he] at h
      simp at h

theorem scan_connectors_append (pre rest : List Connector) :
    ∀ s : MonitorInfo, scan_connectors s (pre ++ rest) =
      match scan_connectors s pre with
      | .next s1 => scan_connectors s1 rest
      | .stop s1 => .stop s1
      | .thrown s1 => .thrown s1 := by
  induction pre with
  | nil => intro s; rfl
  | cons c cs ih =>
    intro s
    simp only [List.cons_append, scan_connectors]
    cases connector_step s c with
    | next s1 => exact ih s1
    | stop s1 => rfl
    | thrown s1 => rfl

theorem connector_step_not_connected (s : MonitorInfo) (c : Connector)
    (h : status_connected c.status = false) : connector_step s c = .next s := by
  unfold connector_step
  simp [h]

/-- C7: a connector whose status file exists and whose first line is not
exactly "connected" has no influence: the record returned for a tree equals
the record returned for the same tree with that connector removed. -/
theorem C7_disconnected_connector_is_excluded (pre post : List Connector) (c : Connector)
    (info : MonitorInfo) (text : String) (hfile : c.status = some text)
    (hline : first_line text.toList ≠ "connected".toList) :
    get_native_resolution_from_drm (some (pre ++ c :: post)) info =
      get_native_resolution_from_drm (some (pre ++ post)) info := by
  have hnot : status_connected c.status = false := by
    rw [hfile]
    exact decide_eq_false hline
  unfold get_native_resolution_from_drm
  simp only
  rw [scan_connectors_append, scan_connectors_append]
  cases scan_connectors info pre with
  | next s1 =>
    simp only [scan_connectors]
    rw [connector_step_not_connected s1 c hnot]
  | stop s1 => rfl
  | thrown s1 => rfl

/-- C7, witness: a disconnected connector with the largest mode list of the
tree, placed between two connected connectors. -/
theorem C7_disconnected_connector_witness :
    sample_disconnected_connector.status = some "disconnected\n" ∧
    first_line "disconnected\n".toList ≠ "connected".toList ∧
    get_native_resolution_from_drm
        (some ([sample_edid_connector] ++ sample_disconnected_connector :: [sample_modes_connector])) {}
      = get_native_resolution_from_drm
        (some ([sample_edid_connector] ++ [sample_modes_connector])) {} :=
  ⟨rfl, by decide,
    C7_disconnected_connector_is_excluded [sample_edid_connector] [sample_modes_connector]
      sample_disconnected_connector {} "disconnected\n" rfl (by decide)⟩

theorem edid_fallback_known (t : MonitorInfo) (edid : Option (List (Fin 256)))
    (hw : t.native_width ≠ 0) (hh : t.native_height ≠ 0) : edid_fallback t edid = t := by
  unfold edid_fallback
  simp [hw, hh]

/-- A connector none of whose mode entries beats the stored area leaves a
record with a fully known native resolution as it is. -/
theorem connector_step_inert_known (t : MonitorInfo) (c : Connector)
    (hw : 0 < t.native_width) (hh : 0 < t.native_height)
    (h : ∀ x ∈ mode_entries (connector_lines c), area x ≤ area (native_of t)) :
    (connector_step t c).info = t := by
  unfold connector_step
  split
  · rfl
  · split
    · rfl
    · cases hm : c.modes with
      | none =>
        simp only
        rw [edid_fallback_known t c.edid (by omega) (by omega)]
        rfl
      | some content =>
        simp only
        have hl : connector_lines c = getlines content.toList := by
          simp [connector_lines, hm]
        rw [hl] at h
        rcases scan_mode_lines_inert _ t h with hs | hs
        · rw [hs]
          simp [hw, hh, Flow.info]
        · rw [hs]
          rfl

theorem scan_connectors_inert_known (cs : List Connector) (t : MonitorInfo)
    (hw : 0 < t.native_width) (hh : 0 < t.native_height)
    (h : ∀ c ∈ cs, ∀ x ∈ mode_entries (connector_lines c), area x ≤ area (native_of t)) :
    (scan_connectors t cs).info = t := by
  induction cs with
  | nil => rfl
  | cons c rest ih =>
    have hstep := connector_step_inert_known t c hw hh (h c (List.mem_cons_self _ _))
    unfold scan_connectors
    cases hc : connector_step t c with
    | next s1 =>
      rw [hc] at hstep
      simp only [Flow.info] at hstep
      subst hstep
      exact ih (fun c' hc' => h c' (List.mem_cons_of_mem _ hc'))
    | stop s1 => rw [hc] at hstep; exact hstep
    | thrown s1 => rw [hc] at hstep; exact hstep

/-- C6 (as amended): when the scan reaches, with the native resolution still
0x0, a connected connector without any mode entry but with an edid of at least
128 bytes that has the magic header and strictly positive decoded timing, the
native resolution becomes the EDID-derived pair; it is the final result when no
later connector lists a mode of strictly greater area. -/
theorem C6_edid_fallback_result (pre post : List Connector) (c : Connector)
    (info info1 : MonitorInfo) (bytes : List (Fin 256))
    (hreach : scan_connectors info pre = .next info1)
    (hw0 : info1.native_width = 0) (hh0 : info1.native_height = 0)
    (hname : name_is_connector c.name = true) (hstatus : status_connected c.status = true)
    (hmodes : mode_entries (connector_lines c) = [])
    (hedid : c.edid = some bytes) (hlen : 128 ≤ bytes.length)
    (hheader : edid_header_ok (bytes.take 128) = true)
    (hh : 0 < edid_h_active (bytes.take 128)) (hv : 0 < edid_v_active (bytes.take 128))
    (hpost : ∀ c' ∈ post, ∀ x ∈ mode_entries (connector_lines c'),
      area x ≤ area ((edid_h_active (bytes.take 128) : Int), (edid_v_active (bytes.take 128) : Int))) :
    get_native_resolution_from_drm (some (pre ++ c :: post)) info =
      with_native info1 (edid_h_active (bytes.take 128)) (edid_v_active (bytes.take 128)) := by
  have hfb : edid_fallback info1 c.edid =
      with_native info1 (edid_h_active (bytes.take 128)) (edid_v_active (bytes.take 128)) := by
    have hl : (List.take 128 bytes).length = 128 := by
      rw [List.length_take]; omega
    rw [hedid]
    unfold edid_fallback
    simp only [hw0, true_or, if_true, hl]
    rw [edid_decode_block_eq, if_pos ⟨hheader, hh, hv⟩]
  have hstep : connector_step info1 c =
      .next (with_native info1 (edid_h_active (bytes.take 128)) (edid_v_active (bytes.take 128))) := by
    unfold connector_step
    simp only [hname, hstatus, Bool.not_true, Bool.false_eq_true, if_false]
    cases hm : c.modes with
    | none => simp only [hfb]
    | some content =>
      have hl : connector_lines c = getlines content.toList := by
        simp [connector_lines, hm]
      rw [hl] at hmodes
      simp only [scan_mode_lines_no_entries _ info1 hmodes, hw0, hh0, hfb]
      simp
  unfold get_native_resolution_from_drm
  simp only
  rw [scan_connectors_append, hreach]
  simp only [scan_connectors, hstep]
  exact scan_connectors_inert_known post _ (by simp only [with_native]; omega)
    (by simp only [with_native]; omega) hpost

/-- C6, witness: the sample connector with an edid for 1920x1080, followed by
a connector that lists 1280x720. -/
theorem C6_edid_fallback_witness :
    scan_connectors {} [] = .next {} ∧
    name_is_connector sample_edid_connector.name = true ∧
    status_connected sample_edid_connector.status = true ∧
    mode_entries (connector_lines sample_edid_connector) = [] ∧
    sample_edid_connector.edid = some (edid_sample 0x80 0x38 0x70 0x40) ∧
    get_native_resolution_from_drm
        (some ([] ++ sample_edid_connector :: [sample_small_modes_connector])) {}
      = with_native {} 1920 1080 :=
  ⟨rfl, by decide, by decide, by decide, rfl,
    C6_edid_fallback_result [] [sample_small_modes_connector] sample_edid_connector {} {}
      (edid_sample 0x80 0x38 0x70 0x40) rfl rfl rfl (by decide) (by decide) (by decide) rfl
      (by decide) (by decide) (by decide) (by decide) (by decide)⟩

/-- C6, counterexample: the scan reaches, with native 0x0, a connected
connector without modes file whose edid decodes to 1920x1080, and yet the
final result is 3840x2160, the mode of the connector scanned after it. -/
theorem C6_counterexample_later_modes_override :
    get_native_resolution_from_drm (some [sample_edid_connector]) {} = with_native {} 1920 1080 ∧
    get_native_resolution_from_drm (some [sample_edid_connector, sample_modes_connector]) {}
      = with_native {} 3840 2160 ∧
    with_native ({} : MonitorInfo) 3840 2160 ≠ with_native {} 1920 1080 := by
  decide

/-! ## Running the scan a second time -/

theorem process_mode_line_area_le {s s1 : MonitorInfo} {l : List Char} {p : Int × Int}
    (hp : process_mode_line s l = some s1) (he : line_entry l = some p) :
    area p ≤ area (native_of s1) := by
  rw [process_mode_line_eq] at hp
  by_cases hthrow : line_throws l = true
  · simp [hthrow] at hp
  · simp only [hthrow, he, if_false, Bool.false_eq_true, Option.some.injEq] at hp
    by_cases hgt : area p > area (native_of s)
    · rw [if_pos hgt] at hp
      rw [← hp, native_of_with_native]
    · rw [if_neg hgt] at hp
      rw [← hp]
      exact not_lt.mp hgt

/-- A record whose stored area is at least the area the mode loop ended with
goes through the same loop unchanged, and leaves it the same way. -/
theorem scan_mode_lines_replay (lines : List (List Char)) :
    ∀ s t : MonitorInfo,
      area (native_of (scan_mode_lines s lines).info) ≤ area (native_of t) →
      scan_mode_lines t lines = (scan_mode_lines s lines).with_info t := by
  induction lines with
  | nil => intro s t _; rfl
  | cons l ls ih =>
    intro s t hle
    by_cases hthrow : line_throws l = true
    · have h1 : process_mode_line s l = none := by rw [process_mode_line_eq]; simp [hthrow]
      have h2 : process_mode_line t l = none := by rw [process_mode_line_eq]; simp [hthrow]
      simp only [scan_mode_lines, h1, h2]
      rfl
    · cases hs : process_mode_line s l with
      | none =>
        rw [process_mode_line_eq] at hs
        simp only [hthrow, if_false] at hs
        cases he : line_entry l <;> simp [he] at hs
      | some s1 =>
        have hrun : scan_mode_lines s (l :: ls) = scan_mode_lines s1 ls := by
          simp only [scan_mode_lines, hs]
        rw [hrun] at hle ⊢
        have ht : process_mode_line t l = some t := by
          rw [process_mode_line_eq]
          simp only [hthrow, if_false]
          cases he : line_entry l with
          | none => rfl
          | some p =>
            have h1 := process_mode_line_area_le hs he
            have h2 := advances_area_le (scan_mode_lines_advances ls s1)
            have hp : ¬ area p > area (native_of t) := by
              have := le_trans (le_trans h1 h2) hle
              omega
            simp only [hp, if_false, Bool.false_eq_true]
        simp only [scan_mode_lines, ht]
        exact ih s1 t hle

theorem advances_known {s t : MonitorInfo} (h : advances s t) (h0 : 0 ≤ area (native_of s))
    (hw : 0 < s.native_width) (hh : 0 < s.native_height) :
    0 < t.native_width ∧ 0 < t.native_height := by
  rcases h with rfl | ⟨w, h, rfl, hw', hh', hlt⟩
  · exact ⟨hw, hh⟩
  · exact area_pos_dims hw' hh' (lt_of_le_of_lt h0 hlt)

theorem edid_fallback_replay (s t : MonitorInfo) (edid : Option (List (Fin 256)))
    (h0 : 0 ≤ area (native_of s)) (h : advances (edid_fallback s edid) t) :
    edid_fallback t edid = t := by
  by_cases hz : t.native_width = 0 ∨ t.native_height = 0
  · have hzero : area (native_of t) = 0 := by
      unfold native_of
      rcases hz with hz | hz
      · rw [hz, area_zero_left]
      · rw [hz, area_zero_right]
    have h1 := edid_fallback_advances s edid
    have a1 := advances_area_le h1
    have a2 := advances_area_le h
    have e1 : t = edid_fallback s edid := advances_eq_of_area_le h (by omega)
    have e2 : edid_fallback s edid = s := advances_eq_of_area_le h1 (by omega)
    rw [e1, e2, e2]
  · push_neg at hz
    exact edid_fallback_known t edid hz.1 hz.2

/-- A record that the scan has advanced to, past connector `c`, goes through
the step of `c` unchanged; and where the first pass left the loop at `c`, so
does the second. -/
theorem connector_step_replay (s t : MonitorInfo) (c : Connector)
    (h0 : 0 ≤ area (native_of s)) (h : advances (connector_step s c).info t) :
    (connector_step t c).info = t ∧
      ((connector_step s c).is_next = false → (connector_step t c).is_next = false) := by
  unfold connector_step at h ⊢
  by_cases hname : name_is_connector c.name = true
  swap
  · simp [hname, Flow.info, Flow.is_next]
  by_cases hstatus : status_connected c.status = true
  swap
  · simp [hname, hstatus, Flow.info, Flow.is_next]
  simp only [hname, hstatus, Bool.not_true, Bool.false_eq_true, if_false] at h ⊢
  cases hm : c.modes with
  | none =>
    rw [hm] at h
    simp only [Flow.info] at h
    simp only [Flow.info, Flow.is_next, edid_fallback_replay s t c.edid h0 h]
    simp
  | some content =>
    rw [hm] at h
    simp only at h ⊢
    have hadv := scan_mode_lines_advances (getlines content.toList) s
    have hrep := scan_mode_lines_replay (getlines content.toList) s t
    cases hsc : scan_mode_lines s (getlines content.toList) with
    | thrown s1 =>
      rw [hsc] at h hadv hrep
      simp only [Flow.info] at h hadv hrep
      rw [hrep (advances_area_le h)]
      simp [Flow.with_info, Flow.info, Flow.is_next]
    | stop s1 =>
      rw [hsc] at h hadv hrep
      simp only [Flow.info] at h hadv hrep
      rw [hrep (advances_area_le h)]
      simp [Flow.with_info, Flow.info, Flow.is_next]
    | next s1 =>
      rw [hsc] at h hadv hrep
      simp only [Flow.info] at h hadv hrep
      have h1 : 0 ≤ area (native_of s1) := le_trans h0 (advances_area_le hadv)
      by_cases hk : s1.native_width > 0 ∧ s1.native_height > 0
      · simp only [hk, and_self, if_true, Flow.info] at h
        rw [hrep (advances_area_le h)]
        have hkt := advances_known h h1 hk.1 hk.2
        simp [Flow.with_info, Flow.info, Flow.is_next, hkt.1, hkt.2]
      · simp only [hk, if_false, Flow.info] at h
        have hstep := edid_fallback_advances s1 c.edid
        rw [hrep (advances_area_le (advances_trans hstep h))]
        simp only [Flow.with_info, hk, if_false, Flow.is_next]
        by_cases hkt : t.native_width > 0 ∧ t.native_height > 0
        · simp [hkt, Flow.info]
        · simp only [hkt, if_false, Flow.info, edid_fallback_replay s1 t c.edid h1 h]
          simp

/-- A second pass over the same connectors, from any record the first pass
has advanced to, changes nothing. -/
theorem scan_connectors_replay (cs : List Connector) :
    ∀ s t : MonitorInfo, 0 ≤ area (native_of s) →
      advances (scan_connectors s cs).info t → (scan_connectors t cs).info = t := by
  induction cs with
  | nil => intro s t _ _; rfl
  | cons c rest ih =>
    intro s t h0 h
    have hone := connector_step_advances s c
    unfold scan_connectors at h
    cases hc : connector_step s c with
    | next s1 =>
      rw [hc] at h hone
      simp only [Flow.info] at hone
      simp only at h
      have hfin := scan_connectors_advances rest s1
      have hrep := connector_step_replay s t c h0 (by rw [hc]; exact advances_trans hfin h)
      have h1 : 0 ≤ area (native_of s1) := le_trans h0 (advances_area_le hone)
      unfold scan_connectors
      cases hct : connector_step t c with
      | next t1 =>
        rw [hct] at hrep
        simp only [Flow.info] at hrep
        rw [hrep.1]
        exact ih s1 t h1 h
      | stop t1 => rw [hct] at hrep; exact hrep.1
      | thrown t1 => rw [hct] at hrep; exact hrep.1
    | stop s1 =>
      rw [hc] at h
      have hrep := connector_step_replay s t c h0 (by rw [hc]; exact h)
      rw [hc] at hrep
      unfold scan_connectors
      cases hct : connector_step t c with
      | next t1 =>
        rw [hct] at hrep
        simp [Flow.is_next] at hrep
      | stop t1 => rw [hct] at hrep; exact hrep.1
      | thrown t1 => rw [hct] at hrep; exact hrep.1
    | thrown s1 =>
      rw [hc] at h
      have hrep := connector_step_replay s t c h0 (by rw [hc]; exact h)
      rw [hc] at hrep
      unfold scan_connectors
      cases hct : connector_step t c with
      | next t1 =>
        rw [hct] at hrep
        simp [Flow.is_next] at hrep
      | stop t1 => rw [hct] at hrep; exact hrep.1
      | thrown t1 => rw [hct] at hrep; exact hrep.1

theorem get_native_resolution_from_drm_twice (drm : Option (List Connector)) (s : MonitorInfo)
    (h0 : 0 ≤ area (native_of s)) :
    get_native_resolution_from_drm drm (get_native_resolution_from_drm drm s) =
      get_native_resolution_from_drm drm s := by
  cases drm with
  | none => rfl
  | some cs => exact scan_connectors_replay cs s _ h0 (advances_refl _)

/-! ## Records built by the Wayland handlers -/

theorem wl_fold_invariant (P : MonitorInfo → Prop)
    (hstep : ∀ s ev, P s → P (wl_dispatch s ev)) :
    ∀ (evs : List WlEvent) (s : MonitorInfo), P s → P (evs.foldl wl_dispatch s) := by
  intro evs
  induction evs with
  | nil => intro s hs; exact hs
  | cons ev rest ih => intro s hs; exact ih _ (hstep s ev hs)

theorem output_mode_native (s : MonitorInfo) (flags : Nat) (w h : Int) :
    native_of (output_mode s flags w h) =
      if area (w, h) > area (native_of s) then (w, h) else native_of s := by
  unfold output_mode native_of area
  by_cases hc : flags &&& WL_OUTPUT_MODE_CURRENT ≠ 0 <;>
    by_cases hgt : imul32 w h > imul32 s.native_width s.native_height <;> simp [hc, hgt]

theorem wl_dispatch_area_nonneg (s : MonitorInfo) (ev : WlEvent)
    (h : 0 ≤ area (native_of s)) : 0 ≤ area (native_of (wl_dispatch s ev)) := by
  cases ev with
  | geometry x y pw ph sp make model tr => exact h
  | scale factor => exact h
  | mode flags w hgt r =>
    simp only [wl_dispatch]
    rw [output_mode_native]
    split
    · omega
    · exact h

theorem wl_record_area_nonneg (evs : List WlEvent) : 0 ≤ area (native_of (wl_record evs)) :=
  wl_fold_invariant (fun s => 0 ≤ area (native_of s)) wl_dispatch_area_nonneg evs {}
    (by decide)

/-- C5: finalizing twice against the same connector tree gives the same record
as finalizing once.  This holds for every record the Wayland handlers build
from a fresh record, and for every record whose stored native area, as the
code computes it, is not negative. -/
theorem C5_finalize_twice_is_finalize_once :
    (∀ (evs : List WlEvent) (drm : Option (List Connector)),
      output_done drm (output_done drm (wl_record evs)) = output_done drm (wl_record evs)) ∧
    (∀ (drm : Option (List Connector)) (info : MonitorInfo),
      0 ≤ imul32 info.native_width info.native_height →
      get_native_resolution_from_drm drm (get_native_resolution_from_drm drm info) =
        get_native_resolution_from_drm drm info) :=
  ⟨fun evs drm => get_native_resolution_from_drm_twice drm _ (wl_record_area_nonneg evs),
    fun drm info h0 => get_native_resolution_from_drm_twice drm info h0⟩

/-- C5, witness: a record with current mode 1920x1080, finalized twice
against a tree of two connectors. -/
theorem C5_finalize_twice_witness :
    0 ≤ imul32 (wl_record [.mode 1 1920 1080 60000]).native_width
      (wl_record [.mode 1 1920 1080 60000]).native_height ∧
    get_native_resolution_from_drm (some [sample_edid_connector, sample_modes_connector])
        (get_native_resolution_from_drm (some [sample_edid_connector, sample_modes_connector])
          (wl_record [.mode 1 1920 1080 60000]))
      = get_native_resolution_from_drm (some [sample_edid_connector, sample_modes_connector])
          (wl_record [.mode 1 1920 1080 60000]) :=
  ⟨by decide, C5_finalize_twice_is_finalize_once.2 _ _ (by decide)⟩

theorem wl_fold_invariant_mem (P : MonitorInfo → Prop) (evs : List WlEvent)
    (hstep : ∀ s, ∀ ev ∈ evs, P s → P (wl_dispatch s ev)) :
    ∀ s : MonitorInfo, P s → P (evs.foldl wl_dispatch s) := by
  induction evs with
  | nil => intro s hs; exact hs
  | cons ev rest ih =>
    intro s hs
    exact ih (fun s' ev' hev' => hstep s' ev' (List.mem_cons_of_mem _ hev')) _
      (hstep s ev (List.mem_cons_self _ _) hs)

theorem output_mode_current (s : MonitorInfo) (flags : Nat) (w h : Int) :
    current_of (output_mode s flags w h) =
      if flags &&& WL_OUTPUT_MODE_CURRENT ≠ 0 then (w, h) else current_of s := by
  unfold output_mode current_of
  by_cases hc : flags &&& WL_OUTPUT_MODE_CURRENT ≠ 0 <;>
    by_cases hgt : imul32 w h > imul32 s.native_width s.native_height <;> simp [hc, hgt]

theorem wl_dispatch_area_order (s : MonitorInfo) (ev : WlEvent)
    (h : area (current_of s) ≤ area (native_of s)) :
    area (current_of (wl_dispatch s ev)) ≤ area (native_of (wl_dispatch s ev)) := by
  cases ev with
  | geometry x y pw ph sp make model tr => exact h
  | scale factor => exact h
  | mode flags w hgt r =>
    simp only [wl_dispatch]
    rw [output_mode_native, output_mode_current]
    split <;> split <;> omega

theorem x11_current_fallback_width (i : MonitorInfo) :
    ((x11_current_fallback i).native_width = 0 → (x11_current_fallback i).width_px = 0) ∧
    ((x11_current_fallback i).native_height = 0 →
      (x11_current_fallback i).height_px = 0 ∨ (x11_current_fallback i).width_px ≤ 0) := by
  unfold x11_current_fallback
  split
  · simp only
    exact ⟨fun h => h, fun h => Or.inl h⟩
  · rename_i hg
    push_neg at hg
    refine ⟨fun h => absurd h hg.1, fun h => Or.inr ?_⟩
    have := hg.2 h
    omega

/-- C4 (as amended): a record built by the Wayland handlers and finalized by
`output_done` has a native pixel area that is at least its current pixel
area, areas being `width * height` as the code computes it; the order need not
hold component by component.  A record built for an X11 output has native
width 0 only if its current width is 0, the native fields being set to the
current mode by the final fallback alone. -/
theorem C4_native_area_bounds_current :
    (∀ (evs : List WlEvent) (drm : Option (List Connector)),
      area (current_of (output_done drm (wl_record evs))) ≤
        area (native_of (output_done drm (wl_record evs)))) ∧
    (∀ (screen_modes : List XRRModeInfo) (drm : Option (List Connector))
      (aspect_check : MonitorInfo → Option F32) (out : XRROutputInfo) (r : MonitorInfo),
      x11_output_record screen_modes drm aspect_check out = some r →
        (r.native_width = 0 → r.width_px = 0) ∧
        (r.native_height = 0 → r.height_px = 0 ∨ r.width_px ≤ 0)) := by
  constructor
  · intro evs drm
    have h1 : area (current_of (wl_record evs)) ≤ area (native_of (wl_record evs)) :=
      wl_fold_invariant (fun s => area (current_of s) ≤ area (native_of s))
        wl_dispatch_area_order evs {} (by decide)
    have hadv := get_native_resolution_from_drm_advances drm (wl_record evs)
    unfold output_done
    rw [advances_current hadv]
    exact le_trans h1 (advances_area_le hadv)
  · intro screen_modes drm aspect_check out r hr
    unfold x11_output_record at hr
    split at hr
    · simp at hr
    · simp only [Option.some.injEq] at hr
      rw [← hr]
      exact x11_current_fallback_width _

/-- C4, counterexample: a Wayland output whose current mode is 2560x1080 and
which also lists 1920x1600 is finalized with native width 1920 below current
width 2560; an X11 output whose CRTC is 1080x1920 and whose mode list holds
1920x1080 gets native height 1080 below current height 1920. -/
theorem C4_counterexample_componentwise_order :
    (output_done none (wl_record [.mode 1 2560 1080 60000, .mode 0 1920 1600 60000])).width_px = 2560 ∧
    (output_done none (wl_record [.mode 1 2560 1080 60000, .mode 0 1920 1600 60000])).height_px = 1080 ∧
    (output_done none (wl_record [.mode 1 2560 1080 60000, .mode 0 1920 1600 60000])).native_width = 1920 ∧
    (output_done none (wl_record [.mode 1 2560 1080 60000, .mode 0 1920 1600 60000])).native_height = 1600 ∧
    x11_output_record [⟨1, 1920, 1080⟩] none (fun _ => none)
        ⟨"HDMI-1", 527, 296, RR_Connected, some ⟨0, 0, 1080, 1920⟩, [1]⟩
      = some { name := "HDMI-1", width_px := 1080, height_px := 1920, native_width := 1920,
               native_height := 1080, width_mm := 527, height_mm := 296 } := by
  decide

/-- C4, witness: the area order at the Wayland output with current mode
2560x1080 that also lists 1920x1600. -/
theorem C4_native_area_bounds_current_witness :
    area (current_of (output_done none
        (wl_record [.mode 1 2560 1080 60000, .mode 0 1920 1600 60000]))) ≤
      area (native_of (output_done none
        (wl_record [.mode 1 2560 1080 60000, .mode 0 1920 1600 60000]))) :=
  C4_native_area_bounds_current.1 _ none

/-! ## Fully known or fully unknown -/

theorem advances_known_or_unknown {s t : MonitorInfo} (h : advances s t)
    (h0 : 0 ≤ area (native_of s)) (hs : known_or_unknown (native_of s)) :
    known_or_unknown (native_of t) := by
  rcases h with rfl | ⟨w, h, rfl, hw, hh, hlt⟩
  · exact hs
  · rw [native_of_with_native]
    exact Or.inl (area_pos_dims hw hh (lt_of_le_of_lt h0 hlt))

theorem wl_dispatch_known_or_unknown (s : MonitorInfo) (ev : WlEvent) (hev : ev.dims_nonneg)
    (hs : 0 ≤ area (native_of s) ∧ known_or_unknown (native_of s)) :
    0 ≤ area (native_of (wl_dispatch s ev)) ∧ known_or_unknown (native_of (wl_dispatch s ev)) := by
  refine ⟨wl_dispatch_area_nonneg s ev hs.1, ?_⟩
  cases ev with
  | geometry x y pw ph sp make model tr => exact hs.2
  | scale factor => exact hs.2
  | mode flags w hgt r =>
    simp only [wl_dispatch]
    rw [output_mode_native]
    split
    · rename_i hlt
      exact Or.inl (area_pos_dims hev.1 hev.2 (lt_of_le_of_lt hs.1 hlt))
    · exact hs.2

theorem current_of_with_native (s : MonitorInfo) (w h : Int) :
    current_of (with_native s w h) = current_of s := rfl

theorem x11_consider_mode_cons (i : MonitorInfo) (mode_id : Nat) (m : XRRModeInfo)
    (rest : List XRRModeInfo) :
    x11_consider_mode i mode_id (m :: rest) =
      if mode_id = m.id then
        if umul64 (m.width % 4294967296) (m.height % 4294967296) >
            umul64 (to_u64 i.native_width) (to_u64 i.native_height) then
          with_native i (wrap32 m.width) (wrap32 m.height)
        else i
      else x11_consider_mode i mode_id rest := rfl

theorem x11_consider_mode_current (screen_modes : List XRRModeInfo) (mode_id : Nat) :
    ∀ i : MonitorInfo, current_of (x11_consider_mode i mode_id screen_modes) = current_of i := by
  induction screen_modes with
  | nil => intro i; rfl
  | cons m rest ih =>
    intro i
    rw [x11_consider_mode_cons]
    by_cases h1 : mode_id = m.id
    · rw [if_pos h1]
      by_cases h2 : umul64 (m.width % 4294967296) (m.height % 4294967296) >
            umul64 (to_u64 i.native_width) (to_u64 i.native_height)
      · rw [if_pos h2, current_of_with_native]
      · rw [if_neg h2]
    · rw [if_neg h1]
      exact ih i

theorem wrap32_small {n : Nat} (h : n < 2147483648) : wrap32 n = n := by
  unfold wrap32
  omega

theorem umul64_pos {a b : Nat} (h : 0 < umul64 a b) : 0 < a ∧ 0 < b := by
  unfold umul64 at h
  constructor
  · rcases Nat.eq_zero_or_pos a with rfl | ha
    · simp at h
    · exact ha
  · rcases Nat.eq_zero_or_pos b with rfl | hb
    · simp at h
    · exact hb

theorem x11_consider_mode_known (screen_modes : List XRRModeInfo) (mode_id : Nat)
    (hdims : ∀ m ∈ screen_modes, m.width < 2147483648 ∧ m.height < 2147483648) :
    ∀ i : MonitorInfo, known_or_unknown (native_of i) →
      known_or_unknown (native_of (x11_consider_mode i mode_id screen_modes)) := by
  induction screen_modes with
  | nil => intro i hi; exact hi
  | cons m rest ih =>
    intro i hi
    rw [x11_consider_mode_cons]
    by_cases h1 : mode_id = m.id
    · rw [if_pos h1]
      by_cases h2 : umul64 (m.width % 4294967296) (m.height % 4294967296) >
            umul64 (to_u64 i.native_width) (to_u64 i.native_height)
      · rw [if_pos h2, native_of_with_native]
        obtain ⟨hw, hh⟩ := hdims m (List.mem_cons_self _ _)
        obtain ⟨pw, ph⟩ := umul64_pos (lt_of_le_of_lt (Nat.zero_le _) h2)
        left
        rw [wrap32_small hw, wrap32_small hh]
        constructor <;> simp only <;> omega
      · rw [if_neg h2]
        exact hi
    · rw [if_neg h1]
      exact ih (fun m' hm' => hdims m' (List.mem_cons_of_mem _ hm')) i hi

theorem x11_mode_list_known (screen_modes : List XRRModeInfo) (modes : List Nat)
    (hdims : ∀ m ∈ screen_modes, m.width < 2147483648 ∧ m.height < 2147483648) :
    ∀ i : MonitorInfo, known_or_unknown (native_of i) →
      known_or_unknown (native_of (x11_mode_list screen_modes i modes)) ∧
      current_of (x11_mode_list screen_modes i modes) = current_of i := by
  induction modes with
  | nil => intro i hi; exact ⟨hi, rfl⟩
  | cons mode_id rest ih =>
    intro i hi
    have h1 := x11_consider_mode_known screen_modes mode_id hdims i hi
    have h2 := x11_consider_mode_current screen_modes mode_id i
    obtain ⟨h3, h4⟩ := ih _ h1
    simp only [x11_mode_list, List.foldl_cons] at h3 h4 ⊢
    exact ⟨h3, h4.trans h2⟩

theorem x11_drm_lookup_known (drm : Option (List Connector)) (i : MonitorInfo)
    (hi : known_or_unknown (native_of i)) :
    known_or_unknown (native_of (x11_drm_lookup drm i)) ∧
      current_of (x11_drm_lookup drm i) = current_of i := by
  unfold x11_drm_lookup
  split
  · rename_i hz
    have hadv := get_native_resolution_from_drm_advances drm i
    have h0 : 0 ≤ area (native_of i) := by
      unfold native_of
      rcases hz with hz | hz
      · rw [hz, area_zero_left]
      · rw [hz, area_zero_right]
    exact ⟨advances_known_or_unknown hadv h0 hi, advances_current hadv⟩
  · exact ⟨hi, rfl⟩

theorem x11_current_fallback_known (i : MonitorInfo) (hn : known_or_unknown (native_of i))
    (hc : known_or_unknown (current_of i)) :
    known_or_unknown (native_of (x11_current_fallback i)) := by
  unfold x11_current_fallback
  split
  · exact hc
  · exact hn

theorem x11_crtc_record_fields (aspect_check : MonitorInfo → Option F32) (out : XRROutputInfo) :
    native_of (x11_crtc_record aspect_check out) = (0, 0) ∧
    current_of (x11_crtc_record aspect_check out) =
      match out.crtc with
      | none => (0, 0)
      | some crtc => (wrap32 crtc.width, wrap32 crtc.height) := by
  unfold x11_crtc_record
  cases out.crtc with
  | none => exact ⟨rfl, rfl⟩
  | some crtc =>
    simp only
    split
    · split <;> exact ⟨rfl, rfl⟩
    · exact ⟨rfl, rfl⟩

/-- C10: after native-resolution resolution the native resolution is fully
known or fully unknown, never half-known.  For a Wayland record this holds
whenever the mode events carry non-negative dimensions; for an X11 record
whenever the candidate modes have dimensions that are non-negative as `int`
and the current mode taken from the CRTC is itself fully known or fully
unknown. -/
theorem C10_native_never_half_known :
    (∀ (evs : List WlEvent) (drm : Option (List Connector)),
      (∀ ev ∈ evs, ev.dims_nonneg) →
      known_or_unknown (native_of (output_done drm (wl_record evs)))) ∧
    (∀ (screen_modes : List XRRModeInfo) (drm : Option (List Connector))
      (aspect_check : MonitorInfo → Option F32) (out : XRROutputInfo) (r : MonitorInfo),
      (∀ m ∈ screen_modes, m.width < 2147483648 ∧ m.height < 2147483648) →
      (∀ crtc, out.crtc = some crtc →
        known_or_unknown (wrap32 crtc.width, wrap32 crtc.height)) →
      x11_output_record screen_modes drm aspect_check out = some r →
      known_or_unknown (native_of r)) := by
  constructor
  · intro evs drm hev
    have h := wl_fold_invariant_mem
      (fun s => 0 ≤ area (native_of s) ∧ known_or_unknown (native_of s)) evs
      (fun s ev hmem hs => wl_dispatch_known_or_unknown s ev (hev ev hmem) hs) {}
      ⟨by decide, Or.inr ⟨rfl, rfl⟩⟩
    exact advances_known_or_unknown (get_native_resolution_from_drm_advances drm _) h.1 h.2
  · intro screen_modes drm aspect_check out r hdims hcrtc hr
    unfold x11_output_record at hr
    split at hr
    · simp at hr
    · simp only [Option.some.injEq] at hr
      rw [← hr]
      obtain ⟨hn0, hc0⟩ := x11_crtc_record_fields aspect_check out
      have hk0 : known_or_unknown (native_of (x11_crtc_record aspect_check out)) := by
        rw [hn0]; exact Or.inr ⟨rfl, rfl⟩
      obtain ⟨hk1, hc1⟩ := x11_mode_list_known screen_modes out.modes hdims _ hk0
      obtain ⟨hk2, hc2⟩ := x11_drm_lookup_known drm _ hk1
      apply x11_current_fallback_known _ hk2
      rw [hc2, hc1, hc0]
      cases hcr : out.crtc with
      | none => exact Or.inr ⟨rfl, rfl⟩
      | some crtc => exact hcrtc crtc hcr

/-- C10, witness: a Wayland output with modes 1920x1080 (current) and
1280x720, finalized against a tree with one connector. -/
theorem C10_native_never_half_known_witness :
    (∀ ev ∈ [WlEvent.mode 1 1920 1080 60000, WlEvent.mode 0 1280 720 60000], ev.dims_nonneg) ∧
    known_or_unknown (native_of (output_done (some [sample_modes_connector])
      (wl_record [WlEvent.mode 1 1920 1080 60000, WlEvent.mode 0 1280 720 60000]))) :=
  ⟨by simp [WlEvent.dims_nonneg],
    C10_native_never_half_known.1 _ _ (by simp [WlEvent.dims_nonneg])⟩

/-! ## Order of the Wayland events -/

theorem output_mode_eq (s : MonitorInfo) (fl : Nat) (w h : Int) :
    output_mode s fl w h =
      { s with
        width_px := if fl &&& WL_OUTPUT_MODE_CURRENT ≠ 0 then w else s.width_px
        height_px := if fl &&& WL_OUTPUT_MODE_CURRENT ≠ 0 then h else s.height_px
        native_width := if area (w, h) > area (native_of s) then w else s.native_width
        native_height := if area (w, h) > area (native_of s) then h else s.native_height } := by
  unfold output_mode area native_of
  by_cases hc : fl &&& WL_OUTPUT_MODE_CURRENT ≠ 0 <;>
    by_cases hgt : imul32 w h > imul32 s.native_width s.native_height <;> simp [hc, hgt]

theorem output_mode_comm (s : MonitorInfo) (fl fl' : Nat) (w h w' h' : Int)
    (hc : (w = w' ∧ h = h') ∨
      ((fl &&& WL_OUTPUT_MODE_CURRENT = 0 ∨ fl' &&& WL_OUTPUT_MODE_CURRENT = 0) ∧
        area (w, h) ≠ area (w', h'))) :
    output_mode (output_mode s fl w h) fl' w' h' = output_mode (output_mode s fl' w' h') fl w h := by
  rw [output_mode_eq (output_mode s fl w h), output_mode_eq (output_mode s fl' w' h'),
    output_mode_eq s fl w h, output_mode_eq s fl' w' h']
  simp only [native_of]
  generalize hA : area (w, h) = A at hc ⊢
  generalize hB : area (w', h') = B at hc ⊢
  have hN : ∀ c : Prop, ∀ [Decidable c], ∀ a b c' d : Int,
      area (if c then a else b, if c then c' else d) = if c then area (a, c') else area (b, d) := by
    intro c _ a b c' d
    split <;> rfl
  simp only [hN, hA, hB]
  rcases hc with ⟨rfl, rfl⟩ | ⟨hfl, hne⟩
  · rw [hA] at hB
    subst hB
    by_cases h1 : fl &&& WL_OUTPUT_MODE_CURRENT ≠ 0 <;>
      by_cases h2 : fl' &&& WL_OUTPUT_MODE_CURRENT ≠ 0 <;>
      by_cases h3 : A > area (s.native_width, s.native_height) <;> simp [h1, h2, h3]
  · by_cases h1 : fl &&& WL_OUTPUT_MODE_CURRENT ≠ 0 <;>
      by_cases h2 : fl' &&& WL_OUTPUT_MODE_CURRENT ≠ 0
    · exfalso
      rcases hfl with hfl | hfl
      · exact h1 hfl
      · exact h2 hfl
    all_goals
      by_cases h3 : A > area (s.native_width, s.native_height) <;>
        by_cases h4 : B > area (s.native_width, s.native_height) <;> by_cases h5 : B > A <;>
        simp [h1, h2, h3, h4, h5] <;> (try omega)

theorem wl_dispatch_comm (s : MonitorInfo) (a b : WlEvent) (h : wl_compatible a b = true) :
    wl_dispatch (wl_dispatch s a) b = wl_dispatch (wl_dispatch s b) a := by
  cases a with
  | geometry x y pw ph sp make model tr =>
    cases b with
    | geometry x' y' pw' ph' sp' make' model' tr' =>
      simp only [wl_compatible, decide_eq_true_eq] at h
      obtain ⟨rfl, rfl, rfl, rfl, rfl, rfl⟩ := h
      rfl
    | mode fl' w' h' r' =>
      simp only [wl_dispatch]
      rw [output_mode_eq, output_mode_eq]
      rfl
    | scale f' => rfl
  | mode fl w hh r =>
    cases b with
    | geometry x' y' pw' ph' sp' make' model' tr' =>
      simp only [wl_dispatch]
      rw [output_mode_eq, output_mode_eq]
      rfl
    | mode fl' w' h' r' =>
      simp only [wl_compatible, decide_eq_true_eq] at h
      exact output_mode_comm s fl fl' w hh w' h' h
    | scale f' =>
      simp only [wl_dispatch]
      rw [output_mode_eq, output_mode_eq]
      rfl
  | scale f =>
    cases b with
    | geometry x' y' pw' ph' sp' make' model' tr' => rfl
    | mode fl' w' h' r' =>
      simp only [wl_dispatch]
      rw [output_mode_eq, output_mode_eq]
      rfl
    | scale f' =>
      simp only [wl_compatible, decide_eq_true_eq] at h
      subst h
      rfl

/-- C9 (as amended): for a sequence of field-update events in which any two
geometry events write the same values, any two scale events carry the same
factor, and any two mode events either have the same dimensions or have
different pixel areas and are not both flagged current, every permutation of
the sequence, applied to a freshly created record, gives the same record. -/
theorem C9_compatible_events_commute (evs evs' : List WlEvent) (hperm : evs.Perm evs')
    (hcompat : ∀ a ∈ evs, ∀ b ∈ evs, wl_compatible a b = true) :
    wl_record evs' = wl_record evs := by
  unfold wl_record
  exact (List.Perm.foldl_eq' hperm (fun a ha b hb s => wl_dispatch_comm s a b (hcompat a ha b hb))
    {}).symm

/-- C9, witness: a geometry event, two modes of different areas and a scale
event, delivered in two orders. -/
theorem C9_compatible_events_commute_witness :
    [WlEvent.geometry 0 0 600 340 0 (some "Dell") (some "U2720Q") 0, WlEvent.mode 1 1920 1080 60000,
        WlEvent.mode 0 1280 720 60000, WlEvent.scale 2].Perm
      [WlEvent.mode 1 1920 1080 60000, WlEvent.geometry 0 0 600 340 0 (some "Dell") (some "U2720Q") 0,
        WlEvent.mode 0 1280 720 60000, WlEvent.scale 2] ∧
    (∀ a ∈ [WlEvent.geometry 0 0 600 340 0 (some "Dell") (some "U2720Q") 0,
        WlEvent.mode 1 1920 1080 60000, WlEvent.mode 0 1280 720 60000, WlEvent.scale 2],
      ∀ b ∈ [WlEvent.geometry 0 0 600 340 0 (some "Dell") (some "U2720Q") 0,
        WlEvent.mode 1 1920 1080 60000, WlEvent.mode 0 1280 720 60000, WlEvent.scale 2],
      wl_compatible a b = true) ∧
    wl_record [WlEvent.mode 1 1920 1080 60000,
        WlEvent.geometry 0 0 600 340 0 (some "Dell") (some "U2720Q") 0,
        WlEvent.mode 0 1280 720 60000, WlEvent.scale 2]
      = wl_record [WlEvent.geometry 0 0 600 340 0 (some "Dell") (some "U2720Q") 0,
        WlEvent.mode 1 1920 1080 60000, WlEvent.mode 0 1280 720 60000, WlEvent.scale 2] :=
  ⟨List.Perm.swap _ _ _, by decide,
    C9_compatible_events_commute _ _ (List.Perm.swap _ _ _) (by decide)⟩

/-- C9, counterexample: swapping two scale events, two mode events flagged
current, or two mode events of equal area changes the record. -/
theorem C9_counterexample_order_matters :
    ([WlEvent.scale 1, WlEvent.scale 2].Perm [WlEvent.scale 2, WlEvent.scale 1] ∧
      wl_record [WlEvent.scale 1, WlEvent.scale 2] ≠ wl_record [WlEvent.scale 2, WlEvent.scale 1]) ∧
    ([WlEvent.mode 1 1920 1080 60000, WlEvent.mode 1 1280 720 60000].Perm
        [WlEvent.mode 1 1280 720 60000, WlEvent.mode 1 1920 1080 60000] ∧
      current_of (wl_record [WlEvent.mode 1 1920 1080 60000, WlEvent.mode 1 1280 720 60000])
        = (1280, 720) ∧
      current_of (wl_record [WlEvent.mode 1 1280 720 60000, WlEvent.mode 1 1920 1080 60000])
        = (1920, 1080)) ∧
    ([WlEvent.mode 0 1600 900 60000, WlEvent.mode 0 1200 1200 60000].Perm
        [WlEvent.mode 0 1200 1200 60000, WlEvent.mode 0 1600 900 60000] ∧
      native_of (wl_record [WlEvent.mode 0 1600 900 60000, WlEvent.mode 0 1200 1200 60000])
        = (1600, 900) ∧
      native_of (wl_record [WlEvent.mode 0 1200 1200 60000, WlEvent.mode 0 1600 900 60000])
        = (1200, 1200)) :=
  ⟨⟨List.Perm.swap _ _ _, by decide⟩, ⟨List.Perm.swap _ _ _, by decide, by decide⟩,
    ⟨List.Perm.swap _ _ _, by decide, by decide⟩⟩

/-! ## Accuracy of the float operations -/

theorem log2_fuel_spec (fuel : Nat) :
    ∀ n : Nat, 1 ≤ n → n < 2 ^ fuel →
      2 ^ log2_fuel fuel n ≤ n ∧ n < 2 ^ (log2_fuel fuel n + 1) := by
  induction fuel with
  | zero => intro n h1 h2; simp at h2; omega
  | succ f ih =>
    intro n h1 h2
    unfold log2_fuel
    by_cases h : 2 ≤ n
    · rw [if_pos h]
      have hlt : n / 2 < 2 ^ f := by
        rw [pow_succ] at h2
        omega
      obtain ⟨a, b⟩ := ih (n / 2) (by omega) hlt
      constructor
      · rw [pow_succ]; omega
      · rw [pow_succ]; omega
    · rw [if_neg h]
      simp
      omega

theorem log2_self_spec (n : Nat) (h1 : 1 ≤ n) :
    2 ^ log2_fuel n n ≤ n ∧ n < 2 ^ (log2_fuel n n + 1) :=
  log2_fuel_spec n n h1 (Nat.lt_two_pow n)

theorem zpow_two_split (k : Int) :
    (2 : ℚ) ^ k = ((2 ^ k.toNat : Nat) : ℚ) / ((2 ^ (-k).toNat : Nat) : ℚ) := by
  rcases le_or_lt 0 k with h | h
  · have h1 : (-k).toNat = 0 := by omega
    have h2 : (k.toNat : Int) = k := Int.toNat_of_nonneg h
    rw [h1]
    simp only [pow_zero, Nat.cast_one, div_one, Nat.cast_pow, Nat.cast_ofNat]
    rw [← zpow_natCast, h2]
  · have h1 : k.toNat = 0 := by omega
    have h2 : ((-k).toNat : Int) = -k := Int.toNat_of_nonneg (by omega)
    rw [h1]
    simp only [pow_zero, Nat.cast_one, Nat.cast_pow, Nat.cast_ofNat, one_div]
    rw [← zpow_natCast, h2, zpow_neg, inv_inv]

theorem floor_log2_ratio_spec (n d : Nat) (hn : 0 < n) (hd : 0 < d) :
    (2 : ℚ) ^ floor_log2_ratio n d ≤ (n : ℚ) / d ∧
      (n : ℚ) / d < (2 : ℚ) ^ (floor_log2_ratio n d + 1) := by
  obtain ⟨na, nb⟩ := log2_self_spec n hn
  obtain ⟨da, db⟩ := log2_self_spec d hd
  have hdq : (0 : ℚ) < d := by exact_mod_cast hd
  have na' : (2 : ℚ) ^ (log2_fuel n n : Int) ≤ n := by
    rw [zpow_natCast]; exact_mod_cast na
  have nb' : (n : ℚ) < (2 : ℚ) ^ ((log2_fuel n n : Int) + 1) := by
    have : (n : ℚ) < (2 : ℚ) ^ (log2_fuel n n + 1) := by exact_mod_cast nb
    rw [← zpow_natCast] at this
    exact_mod_cast this
  have da' : (2 : ℚ) ^ (log2_fuel d d : Int) ≤ d := by
    rw [zpow_natCast]; exact_mod_cast da
  have db' : (d : ℚ) < (2 : ℚ) ^ ((log2_fuel d d : Int) + 1) := by
    have : (d : ℚ) < (2 : ℚ) ^ (log2_fuel d d + 1) := by exact_mod_cast db
    rw [← zpow_natCast] at this
    exact_mod_cast this
  have hpa : (0 : ℚ) < (2 : ℚ) ^ (log2_fuel d d : Int) := zpow_pos (by norm_num) _
  have hpb : (0 : ℚ) < (2 : ℚ) ^ ((log2_fuel d d : Int) + 1) := zpow_pos (by norm_num) _
  -- the quotient lies strictly between `2^(k-1)` and `2^(k+1)`
  have hup : (n : ℚ) / d < (2 : ℚ) ^ ((log2_fuel n n : Int) - (log2_fuel d d : Int) + 1) := by
    have e : (2 : ℚ) ^ ((log2_fuel n n : Int) - (log2_fuel d d : Int) + 1) =
        (2 : ℚ) ^ ((log2_fuel n n : Int) + 1) / (2 : ℚ) ^ (log2_fuel d d : Int) := by
      rw [← zpow_sub₀ (by norm_num : (2 : ℚ) ≠ 0)]
      congr 1
      ring
    rw [e, div_lt_div_iff hdq hpa]
    calc (n : ℚ) * (2 : ℚ) ^ (log2_fuel d d : Int) ≤ (n : ℚ) * d :=
          mul_le_mul_of_nonneg_left da' (by positivity)
      _ < (2 : ℚ) ^ ((log2_fuel n n : Int) + 1) * d := mul_lt_mul_of_pos_right nb' hdq
  have hlo : (2 : ℚ) ^ ((log2_fuel n n : Int) - (log2_fuel d d : Int) - 1) < (n : ℚ) / d := by
    have e : (2 : ℚ) ^ ((log2_fuel n n : Int) - (log2_fuel d d : Int) - 1) =
        (2 : ℚ) ^ (log2_fuel n n : Int) / (2 : ℚ) ^ ((log2_fuel d d : Int) + 1) := by
      rw [← zpow_sub₀ (by norm_num : (2 : ℚ) ≠ 0)]
      congr 1
      ring
    rw [e, div_lt_div_iff hpb hdq]
    have hnq : (0 : ℚ) < n := by exact_mod_cast hn
    calc (2 : ℚ) ^ (log2_fuel n n : Int) * d < (2 : ℚ) ^ (log2_fuel n n : Int) *
          (2 : ℚ) ^ ((log2_fuel d d : Int) + 1) :=
          mul_lt_mul_of_pos_left db' (zpow_pos (by norm_num) _)
      _ ≤ (n : ℚ) * (2 : ℚ) ^ ((log2_fuel d d : Int) + 1) :=
          mul_le_mul_of_nonneg_right na' (le_of_lt hpb)
  unfold floor_log2_ratio
  simp only
  generalize (log2_fuel n n : Int) - (log2_fuel d d : Int) = k at hup hlo ⊢
  have hsplit := zpow_two_split k
  have hP : (0 : ℚ) < ((2 ^ (-k).toNat : Nat) : ℚ) := by positivity
  have hcond : d * 2 ^ k.toNat ≤ n * 2 ^ (-k).toNat ↔ (2 : ℚ) ^ k ≤ (n : ℚ) / d := by
    rw [hsplit, div_le_div_iff hP hdq]
    constructor
    · intro h
      have : ((d * 2 ^ k.toNat : Nat) : ℚ) ≤ ((n * 2 ^ (-k).toNat : Nat) : ℚ) := by exact_mod_cast h
      push_cast at this ⊢
      linarith
    · intro h
      have : ((d * 2 ^ k.toNat : Nat) : ℚ) ≤ ((n * 2 ^ (-k).toNat : Nat) : ℚ) := by
        push_cast at h ⊢
        linarith
      exact_mod_cast this
  by_cases hc : d * 2 ^ k.toNat ≤ n * 2 ^ (-k).toNat
  · rw [if_pos hc]
    exact ⟨hcond.mp hc, hup⟩
  · rw [if_neg hc]
    refine ⟨le_of_lt hlo, ?_⟩
    have : ¬ (2 : ℚ) ^ k ≤ (n : ℚ) / d := fun h => hc (hcond.mpr h)
    have e : k - 1 + 1 = k := by ring
    rw [e]
    exact not_le.mp this

theorem round_half_even_close (n d : Nat) (hd : 0 < d) :
    |((round_half_even n d : Nat) : ℚ) - (n : ℚ) / d| ≤ 1 / 2 := by
  have hdq : (0 : ℚ) < d := by exact_mod_cast hd
  have hdiv : (n : ℚ) / d = (n / d : Nat) + ((n % d : Nat) : ℚ) / d := by
    have h := Nat.div_add_mod n d
    have : (n : ℚ) = (d : ℚ) * (n / d : Nat) + (n % d : Nat) := by exact_mod_cast h.symm
    rw [this]
    field_simp
    ring
  have hr0 : (0 : ℚ) ≤ ((n % d : Nat) : ℚ) / d := by positivity
  have hr1 : ((n % d : Nat) : ℚ) / d < 1 := by
    rw [div_lt_one hdq]
    exact_mod_cast Nat.mod_lt n hd
  unfold round_half_even
  simp only
  rw [hdiv]
  by_cases hc : 2 * (n % d) > d ∨ (2 * (n % d) = d ∧ n / d % 2 = 1)
  · rw [if_pos hc]
    have hge : (1 : ℚ) / 2 ≤ ((n % d : Nat) : ℚ) / d := by
      rw [div_le_div_iff (by norm_num) hdq]
      have : d ≤ 2 * (n % d) := by omega
      have : (d : ℚ) ≤ ((2 * (n % d) : Nat) : ℚ) := by exact_mod_cast this
      push_cast at this
      linarith
    rw [abs_le]
    push_cast
    constructor <;> linarith
  · rw [if_neg hc]
    have hle : ((n % d : Nat) : ℚ) / d ≤ 1 / 2 := by
      rw [div_le_div_iff hdq (by norm_num)]
      have : 2 * (n % d) ≤ d := by omega
      have : ((2 * (n % d) : Nat) : ℚ) ≤ (d : ℚ) := by exact_mod_cast this
      push_cast at this
      linarith
    rw [abs_le]
    constructor <;> linarith

theorem f32_of_ratio_value (n d : Nat) (hn : 0 < n) :
    (f32_of_ratio false n d).neg = false ∧
    (f32_of_ratio false n d).value =
      ((round_half_even (n * 2 ^ (-(max (floor_log2_ratio n d) (-126) - 23)).toNat)
        (d * 2 ^ (max (floor_log2_ratio n d) (-126) - 23).toNat) : Nat) : ℚ) *
        (2 : ℚ) ^ (max (floor_log2_ratio n d) (-126) - 23) := by
  unfold f32_of_ratio
  rw [if_neg (by omega : ¬ n = 0)]
  simp only
  by_cases hq : round_half_even (n * 2 ^ (-(max (floor_log2_ratio n d) (-126) - 23)).toNat)
      (d * 2 ^ (max (floor_log2_ratio n d) (-126) - 23).toNat) = 16777216
  · rw [if_pos hq, hq]
    refine ⟨rfl, ?_⟩
    simp only [F32.value, Bool.false_eq_true, if_false, one_mul]
    rw [zpow_add_one₀ (by norm_num : (2 : ℚ) ≠ 0)]
    push_cast
    ring
  · rw [if_neg hq]
    refine ⟨rfl, ?_⟩
    simp only [F32.value, Bool.false_eq_true, if_false, one_mul]

/-- Rounding to the nearest float: for a quotient in the normal range the
result is the quotient up to a relative error of `2^-24`. -/
theorem f32_of_ratio_close (n d : Nat) (hn : 0 < n) (hd : 0 < d)
    (hnorm : (2 : ℚ) ^ (-126 : Int) ≤ (n : ℚ) / d) :
    (f32_of_ratio false n d).neg = false ∧
    |(f32_of_ratio false n d).value - (n : ℚ) / d| ≤ (n : ℚ) / d * (2 : ℚ) ^ (-24 : Int) := by
  obtain ⟨hneg, hval⟩ := f32_of_ratio_value n d hn
  refine ⟨hneg, ?_⟩
  obtain ⟨hlo, hhi⟩ := floor_log2_ratio_spec n d hn hd
  have he : -126 ≤ floor_log2_ratio n d := by
    by_contra hcon
    have h1 : floor_log2_ratio n d + 1 ≤ -126 := by omega
    have h2 : (2 : ℚ) ^ (floor_log2_ratio n d + 1) ≤ (2 : ℚ) ^ (-126 : Int) :=
      zpow_le_zpow_right₀ (by norm_num) h1
    exact lt_irrefl _ (lt_of_lt_of_le hhi (le_trans h2 hnorm))
  have hmax : max (floor_log2_ratio n d) (-126) = floor_log2_ratio n d := max_eq_left he
  rw [hmax] at hval
  rw [hval]
  generalize floor_log2_ratio n d = e at hlo hhi hval ⊢
  have hdq : (0 : ℚ) < d := by exact_mod_cast hd
  have hu : (0 : ℚ) < (2 : ℚ) ^ (e - 23) := zpow_pos (by norm_num) _
  have hD : 0 < d * 2 ^ (e - 23).toNat := Nat.mul_pos hd (by positivity)
  have hclose := round_half_even_close (n * 2 ^ (-(e - 23)).toNat) (d * 2 ^ (e - 23).toNat) hD
  have hquot : ((n * 2 ^ (-(e - 23)).toNat : Nat) : ℚ) / ((d * 2 ^ (e - 23).toNat : Nat) : ℚ) =
      (n : ℚ) / d / (2 : ℚ) ^ (e - 23) := by
    rw [zpow_two_split (e - 23)]
    push_cast
    field_simp
  rw [hquot] at hclose
  generalize ((round_half_even (n * 2 ^ (-(e - 23)).toNat) (d * 2 ^ (e - 23).toNat) : Nat) : ℚ)
    = q at hclose ⊢
  have hsplit : (2 : ℚ) ^ (e - 23) = (2 : ℚ) ^ e * (2 : ℚ) ^ (-24 : Int) * 2 := by
    rw [← zpow_add₀ (by norm_num : (2 : ℚ) ≠ 0), ← zpow_add_one₀ (by norm_num : (2 : ℚ) ≠ 0)]
    congr 1
    ring
  have hp24 : (0 : ℚ) < (2 : ℚ) ^ (-24 : Int) := zpow_pos (by norm_num) _
  have hfac : q * (2 : ℚ) ^ (e - 23) - (n : ℚ) / d =
      (q - (n : ℚ) / d / (2 : ℚ) ^ (e - 23)) * (2 : ℚ) ^ (e - 23) := by
    field_simp
    ring
  rw [hfac, abs_mul, abs_of_pos hu]
  calc |q - (n : ℚ) / d / (2 : ℚ) ^ (e - 23)| * (2 : ℚ) ^ (e - 23)
      ≤ 1 / 2 * (2 : ℚ) ^ (e - 23) := mul_le_mul_of_nonneg_right hclose (le_of_lt hu)
    _ = (2 : ℚ) ^ e * (2 : ℚ) ^ (-24 : Int) := by rw [hsplit]; ring
    _ ≤ (n : ℚ) / d * (2 : ℚ) ^ (-24 : Int) := mul_le_mul_of_nonneg_right hlo (le_of_lt hp24)

theorem encl_of_close {x v : ℚ} (h : |v - x| ≤ x * (2 : ℚ) ^ (-24 : Int)) :
    (1 - 1 / 16777216) * x ≤ v ∧ v ≤ (1 + 1 / 16777216) * x := by
  have e : (2 : ℚ) ^ (-24 : Int) = 1 / 16777216 := by norm_num
  rw [e, abs_le] at h
  constructor <;> linarith [h.1, h.2]

theorem f32_of_int_encl (z : Int) (hz : 0 < z) :
    (f32_of_int z).neg = false ∧
    (1 - 1 / 16777216) * (z : ℚ) ≤ (f32_of_int z).value ∧
    (f32_of_int z).value ≤ (1 + 1 / 16777216) * (z : ℚ) := by
  have hneg : decide (z < 0) = false := decide_eq_false (by omega)
  have hn : 0 < z.natAbs := Int.natAbs_pos.mpr (by omega)
  have hcast : ((z.natAbs : Nat) : ℚ) / ((1 : Nat) : ℚ) = (z : ℚ) := by
    have h2 : ((z.natAbs : Nat) : ℚ) = (z : ℚ) := by
      rw [Nat.cast_natAbs, abs_of_pos hz]
    rw [h2]
    simp
  have hz1 : (1 : ℚ) ≤ (z : ℚ) := by exact_mod_cast hz
  have hnorm : (2 : ℚ) ^ (-126 : Int) ≤ ((z.natAbs : Nat) : ℚ) / ((1 : Nat) : ℚ) := by
    rw [hcast]
    have : (2 : ℚ) ^ (-126 : Int) ≤ 1 := by norm_num
    linarith
  unfold f32_of_int
  rw [hneg]
  obtain ⟨h1, h2⟩ := f32_of_ratio_close z.natAbs 1 hn (by norm_num) hnorm
  rw [hcast] at h2
  exact ⟨h1, encl_of_close h2⟩

theorem F32.man_pos_of_value_pos (a : F32) (h : 0 < a.value) : 0 < a.man := by
  rcases Nat.eq_zero_or_pos a.man with h0 | h0
  · simp [F32.value, h0] at h
  · exact h0

theorem f32_div_encl (a b : F32) (ha : a.neg = false) (hb : b.neg = false)
    (hav : 0 < a.value) (hbv : 0 < b.value)
    (hnorm : (2 : ℚ) ^ (-126 : Int) ≤ a.value / b.value) :
    (f32_div a b).neg = false ∧
    (1 - 1 / 16777216) * (a.value / b.value) ≤ (f32_div a b).value ∧
    (f32_div a b).value ≤ (1 + 1 / 16777216) * (a.value / b.value) := by
  have hma := a.man_pos_of_value_pos hav
  have hmb := b.man_pos_of_value_pos hbv
  have hmbq : (0 : ℚ) < (b.man : ℚ) := by exact_mod_cast hmb
  have hquot : ((a.man * 2 ^ (a.exp - b.exp).toNat : Nat) : ℚ) /
      ((b.man * 2 ^ (b.exp - a.exp).toNat : Nat) : ℚ) = a.value / b.value := by
    have hk : b.exp - a.exp = -(a.exp - b.exp) := by ring
    have hs := zpow_two_split (a.exp - b.exp)
    have hsub : (2 : ℚ) ^ (a.exp - b.exp) = (2 : ℚ) ^ a.exp / (2 : ℚ) ^ b.exp :=
      zpow_sub₀ (by norm_num) _ _
    have hpb : (0 : ℚ) < (2 : ℚ) ^ b.exp := zpow_pos (by norm_num) _
    have hP : (0 : ℚ) < ((2 ^ (-(a.exp - b.exp)).toNat : Nat) : ℚ) := by positivity
    simp only [F32.value, ha, hb, Bool.false_eq_true, if_false, one_mul]
    rw [hk]
    push_cast at hs ⊢
    rw [div_eq_div_iff (by positivity) (by positivity)]
    have h3 : (2 : ℚ) ^ a.exp * (2 : ℚ) ^ (-(a.exp - b.exp)).toNat =
        (2 : ℚ) ^ (a.exp - b.exp).toNat * (2 : ℚ) ^ b.exp := by
      have h4 : (2 : ℚ) ^ a.exp = (2 : ℚ) ^ (a.exp - b.exp) * (2 : ℚ) ^ b.exp := by
        rw [hsub]; field_simp
      rw [h4, hs]
      field_simp
    calc (a.man : ℚ) * (2 : ℚ) ^ (a.exp - b.exp).toNat * ((b.man : ℚ) * (2 : ℚ) ^ b.exp)
        = (a.man : ℚ) * (b.man : ℚ) * ((2 : ℚ) ^ (a.exp - b.exp).toNat * (2 : ℚ) ^ b.exp) := by ring
      _ = (a.man : ℚ) * (b.man : ℚ) * ((2 : ℚ) ^ a.exp * (2 : ℚ) ^ (-(a.exp - b.exp)).toNat) := by
          rw [h3]
      _ = (a.man : ℚ) * (2 : ℚ) ^ a.exp * ((b.man : ℚ) * (2 : ℚ) ^ (-(a.exp - b.exp)).toNat) := by
          ring
  have hxor : xor a.neg b.neg = false := by rw [ha, hb]; rfl
  unfold f32_div
  rw [hxor]
  obtain ⟨h1, h2⟩ := f32_of_ratio_close (a.man * 2 ^ (a.exp - b.exp).toNat)
    (b.man * 2 ^ (b.exp - a.exp).toNat) (Nat.mul_pos hma (by positivity))
    (Nat.mul_pos hmb (by positivity)) (by rw [hquot]; exact hnorm)
  rw [hquot] at h2
  exact ⟨h1, encl_of_close h2⟩

theorem f32_25_4_value : f32_25_4.neg = false ∧ f32_25_4.value = 13316915 / 524288 := by
  have h : f32_25_4 = ⟨false, 13316915, -19⟩ := by decide
  rw [h]
  refine ⟨rfl, ?_⟩
  simp only [F32.value, Bool.false_eq_true, if_false, one_mul]
  norm_num

set_option maxHeartbeats 1000000 in
/-- The float `px / (mm / 25.4f)` is the exact quotient `px / (mm / 25.4)` up
to a relative error of `2^-21`, for a positive `int` pixel count and size. -/
theorem dpi_of_close (px mm : Int) (hpx : 0 < px) (hmm : 0 < mm) (hmm' : mm ≤ 2147483647) :
    |(dpi_of px mm).value - (px : ℚ) / ((mm : ℚ) / (127 / 5))| ≤
      (px : ℚ) / ((mm : ℚ) / (127 / 5)) * (1 / 2097152) := by
  unfold dpi_of
  obtain ⟨hcn, hcv⟩ := f32_25_4_value
  obtain ⟨han, ha1, ha2⟩ := f32_of_int_encl px hpx
  obtain ⟨hmn, hm1, hm2⟩ := f32_of_int_encl mm hmm
  have hP : (1 : ℚ) ≤ (px : ℚ) := by exact_mod_cast hpx
  have hQ : (1 : ℚ) ≤ (mm : ℚ) := by exact_mod_cast hmm
  have hQ' : (mm : ℚ) ≤ 2147483647 := by exact_mod_cast hmm'
  have hav : 0 < (f32_of_int px).value := by nlinarith
  have hmv : 0 < (f32_of_int mm).value := by nlinarith
  have hcpos : 0 < f32_25_4.value := by rw [hcv]; norm_num
  have hsmall : (2 : ℚ) ^ (-126 : Int) ≤ 1 / 1099511627776 := by norm_num
  -- the inner division `mm / 25.4f`
  have hmc1 : (1 - 1 / 16777216) * (mm : ℚ) / (13316915 / 524288) ≤
      (f32_of_int mm).value / f32_25_4.value := by
    rw [hcv]
    exact div_le_div_of_nonneg_right hm1 (by norm_num)
  have hmc2 : (f32_of_int mm).value / f32_25_4.value ≤
      (1 + 1 / 16777216) * (mm : ℚ) / (13316915 / 524288) := by
    rw [hcv]
    exact div_le_div_of_nonneg_right hm2 (by norm_num)
  have hnorm1 : (2 : ℚ) ^ (-126 : Int) ≤ (f32_of_int mm).value / f32_25_4.value := by
    refine le_trans hsmall (le_trans ?_ hmc1)
    rw [le_div_iff₀ (by norm_num)]
    nlinarith
  obtain ⟨htn, ht1, ht2⟩ := f32_div_encl (f32_of_int mm) f32_25_4 hmn hcn hmv hcpos hnorm1
  generalize (f32_div (f32_of_int mm) f32_25_4) = T at htn ht1 ht2 ⊢
  have htl : (1 - 1 / 16777216) * ((1 - 1 / 16777216) * (mm : ℚ) / (13316915 / 524288)) ≤
      T.value := le_trans (mul_le_mul_of_nonneg_left hmc1 (by norm_num)) ht1
  have hth : T.value ≤
      (1 + 1 / 16777216) * ((1 + 1 / 16777216) * (mm : ℚ) / (13316915 / 524288)) :=
    le_trans ht2 (mul_le_mul_of_nonneg_left hmc2 (by norm_num))
  have htl' : (0 : ℚ) < (1 - 1 / 16777216) * ((1 - 1 / 16777216) * (mm : ℚ) / (13316915 / 524288)) := by
    positivity
  have htv : 0 < T.value := lt_of_lt_of_le htl' htl
  -- the outer division `px / (mm / 25.4f)`
  have hat1 : (1 - 1 / 16777216) * (px : ℚ) /
      ((1 + 1 / 16777216) * ((1 + 1 / 16777216) * (mm : ℚ) / (13316915 / 524288))) ≤
      (f32_of_int px).value / T.value :=
    div_le_div (le_of_lt hav) ha1 htv hth
  have hat2 : (f32_of_int px).value / T.value ≤ (1 + 1 / 16777216) * (px : ℚ) /
      ((1 - 1 / 16777216) * ((1 - 1 / 16777216) * (mm : ℚ) / (13316915 / 524288))) :=
    div_le_div (by positivity) ha2 htl' htl
  have hnorm2 : (2 : ℚ) ^ (-126 : Int) ≤ (f32_of_int px).value / T.value := by
    refine le_trans hsmall (le_trans ?_ hat1)
    rw [le_div_iff₀ (by positivity)]
    nlinarith
  obtain ⟨-, hd1, hd2⟩ := f32_div_encl (f32_of_int px) T han htn hav htv hnorm2
  generalize (f32_div (f32_of_int px) T).value = d at hd1 hd2 ⊢
  have hlow : (px : ℚ) / ((mm : ℚ) / (127 / 5)) * (1 - 1 / 2097152) ≤
      (1 - 1 / 16777216) * ((1 - 1 / 16777216) * (px : ℚ) /
      ((1 + 1 / 16777216) * ((1 + 1 / 16777216) * (mm : ℚ) / (13316915 / 524288)))) := by
    have hr : (0 : ℚ) < (px : ℚ) / (mm : ℚ) := by positivity
    have e1 : (px : ℚ) / ((mm : ℚ) / (127 / 5)) * (1 - 1 / 2097152) =
        (127 / 5 * (1 - 1 / 2097152)) * ((px : ℚ) / (mm : ℚ)) := by
      field_simp
      ring
    have e2 : (1 - 1 / 16777216) * ((1 - 1 / 16777216) * (px : ℚ) /
        ((1 + 1 / 16777216) * ((1 + 1 / 16777216) * (mm : ℚ) / (13316915 / 524288)))) =
        ((1 - 1 / 16777216) * (1 - 1 / 16777216) * (13316915 / 524288) /
          ((1 + 1 / 16777216) * (1 + 1 / 16777216))) * ((px : ℚ) / (mm : ℚ)) := by
      field_simp
      ring
    rw [e1, e2]
    exact mul_le_mul_of_nonneg_right (by norm_num) (le_of_lt hr)
  have hupp : (1 + 1 / 16777216) * ((1 + 1 / 16777216) * (px : ℚ) /
      ((1 - 1 / 16777216) * ((1 - 1 / 16777216) * (mm : ℚ) / (13316915 / 524288)))) ≤
      (px : ℚ) / ((mm : ℚ) / (127 / 5)) * (1 + 1 / 2097152) := by
    have hr : (0 : ℚ) < (px : ℚ) / (mm : ℚ) := by positivity
    have e1 : (px : ℚ) / ((mm : ℚ) / (127 / 5)) * (1 + 1 / 2097152) =
        (127 / 5 * (1 + 1 / 2097152)) * ((px : ℚ) / (mm : ℚ)) := by
      field_simp
      ring
    have e2 : (1 + 1 / 16777216) * ((1 + 1 / 16777216) * (px : ℚ) /
        ((1 - 1 / 16777216) * ((1 - 1 / 16777216) * (mm : ℚ) / (13316915 / 524288)))) =
        ((1 + 1 / 16777216) * (1 + 1 / 16777216) * (13316915 / 524288) /
          ((1 - 1 / 16777216) * (1 - 1 / 16777216))) * ((px : ℚ) / (mm : ℚ)) := by
      field_simp
      ring
    rw [e1, e2]
    exact mul_le_mul_of_nonneg_right (by norm_num) (le_of_lt hr)
  have hd1' := le_trans hlow (le_trans (mul_le_mul_of_nonneg_left hat1 (by norm_num)) hd1)
  have hd2' := le_trans (le_trans hd2 (mul_le_mul_of_nonneg_left hat2 (by norm_num))) hupp
  generalize (px : ℚ) / ((mm : ℚ) / (127 / 5)) = x at hd1' hd2' ⊢
  rw [abs_le]
  constructor <;> linarith

/-! ## The DPI report -/

/-- C8 (as amended): for a record with strictly positive physical width and
height, `print_monitor_info` reports for each axis the single-precision value
of `resolution_px / (physical_size_mm / 25.4f)`, for the native resolution
when it is strictly positive and for the current resolution when it is
strictly positive; that value is the exact quotient
`resolution_px / (physical_size_mm / 25.4)` up to a relative error of `2^-21`;
when the physical width or height is zero no DPI is reported.  Native
3840x2160 on a 600x340 mm panel is printed as 162.6x161.4. -/
theorem C8_dpi_report :
    (∀ (m : MonitorInfo) (index : Int), 0 < m.width_mm → 0 < m.height_mm →
      (0 < m.native_width → 0 < m.native_height →
        (print_monitor_info m index).native_dpi =
          some (dpi_of m.native_width m.width_mm, dpi_of m.native_height m.height_mm)) ∧
      (0 < m.width_px → 0 < m.height_px →
        (print_monitor_info m index).current_dpi =
          some (dpi_of m.width_px m.width_mm, dpi_of m.height_px m.height_mm))) ∧
    (∀ px mm : Int, 0 < px → 0 < mm → mm ≤ 2147483647 →
      dpi_of px mm = f32_div (f32_of_int px) (f32_div (f32_of_int mm) f32_25_4) ∧
      |(dpi_of px mm).value - (px : ℚ) / ((mm : ℚ) / (127 / 5))| ≤
        (px : ℚ) / ((mm : ℚ) / (127 / 5)) * (1 / 2097152)) ∧
    (∀ (m : MonitorInfo) (index : Int), m.width_mm = 0 ∨ m.height_mm = 0 →
      (print_monitor_info m index).native_dpi = none ∧
      (print_monitor_info m index).current_dpi = none) ∧
    printed_tenths (print_monitor_info sample_uhd_monitor 0).native_dpi = some (1626, 1614) := by
  refine ⟨?_, ?_, ?_, by decide⟩
  · intro m index hw hh
    constructor
    · intro hnw hnh
      simp [print_monitor_info, hw, hh, hnw, hnh]
    · intro hpw hph
      simp [print_monitor_info, hw, hh, hpw, hph]
  · intro px mm hpx hmm hmm'
    exact ⟨rfl, dpi_of_close px mm hpx hmm hmm'⟩
  · intro m index hz
    rcases hz with hz | hz <;> simp [print_monitor_info, hz]

/-- C8, witness: the general statement at native 3840x2160 on 600x340 mm. -/
theorem C8_dpi_report_witness :
    0 < sample_uhd_monitor.width_mm ∧ 0 < sample_uhd_monitor.height_mm ∧
    0 < sample_uhd_monitor.native_width ∧ 0 < sample_uhd_monitor.native_height ∧
    (print_monitor_info sample_uhd_monitor 0).native_dpi =
      some (dpi_of 3840 600, dpi_of 2160 340) ∧
    |(dpi_of 2160 340).value - (2160 : ℚ) / ((340 : ℚ) / (127 / 5))| ≤
      (2160 : ℚ) / ((340 : ℚ) / (127 / 5)) * (1 / 2097152) :=
  ⟨by decide, by decide, by decide, by decide,
    (C8_dpi_report.1 sample_uhd_monitor 0 (by decide) (by decide)).1 (by decide) (by decide),
    by simpa using (C8_dpi_report.2.1 2160 340 (by decide) (by decide) (by decide)).2⟩

/-- C8, counterexample: for native 3840x2160 on a 600x340 mm panel the native
DPI is printed as 162.6x161.4, not 162.6x161.3. -/
theorem C8_counterexample_printed_dpi :
    printed_tenths (print_monitor_info sample_uhd_monitor 0).native_dpi = some (1626, 1614) ∧
    printed_tenths (print_monitor_info sample_uhd_monitor 0).native_dpi ≠ some (1626, 1613) := by
  decide

/-! ## Finalizing a record whose native resolution is already known -/

/-- The X11 per-output finalization consults neither the connector tree nor
the current mode when the XRandR mode list has given a fully known native
resolution: the record pushed is the record as the mode list left it. -/
theorem x11_finalization_keeps_known_native (screen_modes : List XRRModeInfo)
    (drm : Option (List Connector)) (aspect_check : MonitorInfo → Option F32)
    (out : XRROutputInfo) (hconn : out.connection = RR_Connected)
    (hw : 0 < (x11_mode_list screen_modes (x11_crtc_record aspect_check out) out.modes).native_width)
    (hh : 0 < (x11_mode_list screen_modes (x11_crtc_record aspect_check out) out.modes).native_height) :
    x11_output_record screen_modes drm aspect_check out =
      some (x11_mode_list screen_modes (x11_crtc_record aspect_check out) out.modes) := by
  unfold x11_output_record
  rw [if_neg (not_not.mpr hconn)]
  generalize x11_mode_list screen_modes (x11_crtc_record aspect_check out) out.modes = i at hw hh
  have h1 : x11_drm_lookup drm i = i := by
    unfold x11_drm_lookup
    rw [if_neg (by omega)]
  have h2 : x11_current_fallback i = i := by
    unfold x11_current_fallback
    rw [if_neg (by omega)]
  rw [h1, h2]

/-- The handler `output_done` leaves a fully known native resolution as it is
when no connector of the tree lists a mode of strictly greater area. -/
theorem output_done_keeps_known_native (cs : List Connector) (info : MonitorInfo)
    (hw : 0 < info.native_width) (hh : 0 < info.native_height)
    (h : ∀ c ∈ cs, ∀ x ∈ mode_entries (connector_lines c), area x ≤ area (native_of info)) :
    output_done (some cs) info = info :=
  scan_connectors_inert_known cs info hw hh h

/-- C11, on the failing input: a Wayland output whose only mode event is the
current mode 1920x1080 has native 1920x1080 when completion is signalled, and
`output_done` against a tree whose connected connector lists 3840x2160 changes
it to 3840x2160; the X11 finalization of an output with the same mode, against
the same tree, keeps 1920x1080. -/
theorem C11_output_done_rescans_known_native :
    native_of (wl_record [WlEvent.mode 1 1920 1080 60000]) = (1920, 1080) ∧
    native_of (output_done (some [sample_modes_connector])
      (wl_record [WlEvent.mode 1 1920 1080 60000])) = (3840, 2160) ∧
    (x11_output_record [⟨1, 1920, 1080⟩] (some [sample_modes_connector]) (fun _ => none)
      sample_x11_output).map native_of = some (1920, 1080) := by
  decide

end LinuxDisplayInfo
